import Mathlib

/-!
# kite protobuf plugin: service code generator

Shallow embedding of `protoc-gen-go/kite/kite.go` and of `internal/gennew/new.go`.

* A Go `string` is a sequence of bytes; it is embedded as a Lean `String` that holds one
  character per byte.  Every literal of the source is ASCII.
* The plugin writes through `k.gen` (the host generator).  The part of the host it touches is
  the record `State`: the text sink fed by `P`, the import registry fed by `AddImport`, the
  type-use log fed by `RecordTypeUse`, together with the two package variables `contextPkg`
  and `kitePkg` of the plugin.
* Host functions that are pure lookups (`generator.CamelCase`, `TypeName`, the package name
  returned by `AddImport`, `strconv.Quote`, the leading comment stored at a source path) are
  the fields of `Host`.
* A computation is a `Gen α`: it maps a state to an optional result and the state reached.
  No result means that the Go code panicked there; the state is the one at the panic.
* The signature builders read the package variable `reservedClientName`, a map without
  entries.  Statements about other contents of that table use the `withTable` forms of the
  builders, which take the lookup as a parameter.
* `generator.CamelCase` is a field of `Host` in every general statement; the definition
  `CamelCase` models it for the examples that need its values (`goHost`).
* `GenNew` writes to a `protogen.GeneratedFile`, embedded as the list of lines printed;
  the qualified form of a Go identifier is a parameter.
-/

namespace Kite

/-! ## Descriptors -/

/-- A method of a service: `pb.MethodDescriptorProto`, read through its getters. -/
structure MethodDescriptorProto where
  Name : String
  InputType : String
  OutputType : String
  ClientStreaming : Bool
  ServerStreaming : Bool
  Deprecated : Bool
  deriving DecidableEq, Repr

/-- A service: `pb.ServiceDescriptorProto`, read through its getters. -/
structure ServiceDescriptorProto where
  Name : String
  Method : List MethodDescriptorProto
  Deprecated : Bool
  deriving DecidableEq, Repr

/-- A file: the fields of `generator.FileDescriptor` that the plugin reads. -/
structure FileDescriptor where
  Name : String
  Package : String
  Service : List ServiceDescriptorProto
  deriving DecidableEq, Repr

/-! ## Host and state -/

/-- Pure lookups supplied by the host generator and the Go library. -/
structure Host where
  /-- Go `generator.CamelCase`. -/
  CamelCase : String → String
  /-- Go `k.gen.TypeName (k.gen.ObjectNamed name)`. -/
  TypeName : String → String
  /-- The package name that `k.gen.AddImport path` returns. -/
  GoPackageName : String → String
  /-- Go `strconv.Quote`. -/
  Quote : String → String
  /-- The leading comment recorded at a source path, if there is one. -/
  Comments : String → Option String

/-- What the plugin reads and writes while it runs. -/
structure State where
  /-- Text sink: one entry per call of `P`. -/
  out : List String
  /-- Paths handed to `AddImport`. -/
  addedImports : List String
  /-- Names handed to `RecordTypeUse`. -/
  usedTypes : List String
  /-- Package variable `contextPkg`. -/
  contextPkg : String
  /-- Package variable `kitePkg`. -/
  kitePkg : String
  deriving DecidableEq, Repr

/-- A generator computation: optional result (none: the code panicked) and reached state. -/
def Gen (α : Type) : Type := State → Option α × State

instance : Monad Gen where
  pure a := fun k => (some a, k)
  bind x f := fun k =>
    match x k with
    | (some a, k1) => f a k1
    | (none, k1) => (none, k1)

/-- A value that may be missing; a missing value is a panic. -/
def Gen.ofOption {α : Type} (o : Option α) : Gen α := fun k => (o, k)

/-- Concatenation of the printed atoms of one `P` call. -/
def atoms : List String → String
  | [] => ""
  | a :: rest => a ++ atoms rest

/-- Go `k.P (args...)`: forwards to `k.gen.P`.  The embedding is that of a file the host
generates: the text sink is append-only and takes one entry, the printed arguments put
together, per call.  For a file that is only a dependency the host's `P` returns at once;
`hostP` accounts for that. -/
def P (args : List String) : Gen Unit := fun k =>
  (some (), { k with out := k.out ++ [atoms args] })

/-- Go `k.gen.AddImport`: registers the path and returns the package name to print. -/
def AddImport (h : Host) (path : String) : Gen String := fun k =>
  (some (h.GoPackageName path), { k with addedImports := k.addedImports ++ [path] })

/-- Go `k.gen.PrintComments`: prints the leading comment at `path` when there is one. -/
def PrintComments (h : Host) (path : String) : Gen Bool := fun k =>
  match h.Comments path with
  | some c => (some true, { k with out := k.out ++ [c] })
  | none => (some false, k)

/-- Read of the package variable `contextPkg`. -/
def getContextPkg : Gen String := fun k => (some k.contextPkg, k)

/-- Read of the package variable `kitePkg`. -/
def getKitePkg : Gen String := fun k => (some k.kitePkg, k)

/-- Assignment to the package variable `contextPkg`. -/
def setContextPkg (s : String) : Gen Unit := fun k => (some (), { k with contextPkg := s })

/-- Assignment to the package variable `kitePkg`. -/
def setKitePkg (s : String) : Gen Unit := fun k => (some (), { k with kitePkg := s })

/-! ## Constants of kite.go -/

def generatedCodeVersion : Nat := 6

def contextPkgPath : String := "context"
def kitePkgPath : String := "git.dhgames.cn/svr_comm/kiteg"
def codePkgPath : String := "git.dhgames.cn/svr_comm/kiteg/codes"
def statusPkgPath : String := "git.dhgames.cn/svr_comm/kiteg/status"

/-- Go `reservedClientName`: a map with no entry, so every lookup is false. -/
def reservedClientName (_ : String) : Bool := false

/-- Go `deprecationComment`. -/
def deprecationComment : String := "// Deprecated: Do not use."

/-- Go `strings.ToLower` on the one-byte string `s[:1]`: an ASCII byte is lowered, any
other single byte is invalid UTF-8 and comes out as the replacement rune (EF BF BD). -/
def toLowerByte (c : Char) : String :=
  if c.toNat < 128 then String.singleton c.toLower
  else String.mk [Char.ofNat 0xEF, Char.ofNat 0xBF, Char.ofNat 0xBD]

/-- Go `unexport`: `strings.ToLower (s[:1]) + s[1:]`; slicing the empty string panics. -/
def unexport (s : String) : Option String :=
  match s.data with
  | [] => none
  | c :: rest => some (toLowerByte c ++ String.mk rest)

/-! ## Type names -/

/-- Go `objectNamed`: records the use of the type; the object is identified by its name. -/
def objectNamed (name : String) : Gen String := fun k =>
  (some name, { k with usedTypes := k.usedTypes ++ [name] })

/-- Go `typeName`. -/
def typeName (h : Host) (str : String) : Gen String := do
  let obj ← objectNamed str
  return h.TypeName obj

/-! ## Signatures -/

/-- Go `generateClientSignature`. -/
def generateClientSignature (h : Host) (servName : String) (method : MethodDescriptorProto) :
    Gen String := do
  let origMethName := method.Name
  let mut methName := h.CamelCase origMethName
  if reservedClientName methName then
    methName := methName ++ "_"
  let mut reqArg := ", in *" ++ (← typeName h method.InputType)
  if method.ClientStreaming then
    reqArg := ""
  let mut respName := "*" ++ (← typeName h method.OutputType)
  if method.ServerStreaming || method.ClientStreaming then
    respName := servName ++ "_" ++ h.CamelCase origMethName ++ "Client"
  return methName ++ "(ctx " ++ (← getContextPkg) ++ ".Context" ++ reqArg ++ ", opts ..."
    ++ (← getKitePkg) ++ ".CallOption) (" ++ respName ++ ", error)"

/-- Go `strings.Join (elems, ", ")`. -/
def joinComma : List String → String
  | [] => ""
  | [a] => a
  | a :: b :: rest => a ++ ", " ++ joinComma (b :: rest)

/-- Go `generateServerSignatureWithParamNames`. -/
def generateServerSignatureWithParamNames (h : Host) (servName : String)
    (method : MethodDescriptorProto) : Gen String := do
  let origMethName := method.Name
  let mut methName := h.CamelCase origMethName
  if reservedClientName methName then
    methName := methName ++ "_"
  let mut reqArgs : List String := []
  let mut ret := "error"
  if !method.ServerStreaming && !method.ClientStreaming then
    reqArgs := reqArgs ++ ["ctx " ++ (← getContextPkg) ++ ".Context"]
    ret := "(*" ++ (← typeName h method.OutputType) ++ ", error)"
  if !method.ClientStreaming then
    reqArgs := reqArgs ++ ["req *" ++ (← typeName h method.InputType)]
  if method.ServerStreaming || method.ClientStreaming then
    reqArgs := reqArgs ++ ["srv " ++ servName ++ "_" ++ h.CamelCase origMethName ++ "Server"]
  return methName ++ "(" ++ joinComma reqArgs ++ ") " ++ ret

/-- Go `generateServerSignature`. -/
def generateServerSignature (h : Host) (servName : String) (method : MethodDescriptorProto) :
    Gen String := do
  let origMethName := method.Name
  let mut methName := h.CamelCase origMethName
  if reservedClientName methName then
    methName := methName ++ "_"
  let mut reqArgs : List String := []
  let mut ret := "error"
  if !method.ServerStreaming && !method.ClientStreaming then
    reqArgs := reqArgs ++ [(← getContextPkg) ++ ".Context"]
    ret := "(*" ++ (← typeName h method.OutputType) ++ ", error)"
  if !method.ClientStreaming then
    reqArgs := reqArgs ++ ["*" ++ (← typeName h method.InputType)]
  if method.ServerStreaming || method.ClientStreaming then
    reqArgs := reqArgs ++ [servName ++ "_" ++ h.CamelCase origMethName ++ "Server"]
  return methName ++ "(" ++ joinComma reqArgs ++ ") " ++ ret

/-! ## Client side -/

/-- Go `generateClientMethod`. -/
def generateClientMethod (h : Host) (servName fullServName serviceDescVar : String)
    (method : MethodDescriptorProto) (descExpr : String) : Gen Unit := do
  let _ := serviceDescVar
  let sname := "/" ++ fullServName ++ "/" ++ method.Name
  let methName := h.CamelCase method.Name
  let inType ← typeName h method.InputType
  let outType ← typeName h method.OutputType
  if method.Deprecated then
    P [deprecationComment]
  P ["func (c *", ← Gen.ofOption (unexport servName), "Client) ",
    ← generateClientSignature h servName method, "\x7b"]
  if !method.ServerStreaming && !method.ClientStreaming then
    P ["out := new(", outType, ")"]
    P ["err := c.cc.Invoke(ctx, \"", sname, "\", in, out, opts...)"]
    P ["if err != nil \x7b return nil, err \x7d"]
    P ["return out, nil"]
    P ["\x7d"]
    P []
    return
  let streamType := (← Gen.ofOption (unexport servName)) ++ methName ++ "Client"
  P ["stream, err := c.cc.NewStream(ctx, ", descExpr, ", \"", sname, "\", opts...)"]
  P ["if err != nil \x7b return nil, err \x7d"]
  P ["x := &", streamType, "\x7bstream\x7d"]
  if !method.ClientStreaming then
    P ["if err := x.ClientStream.SendMsg(in); err != nil \x7b return nil, err \x7d"]
    P ["if err := x.ClientStream.CloseSend(); err != nil \x7b return nil, err \x7d"]
  P ["return x, nil"]
  P ["\x7d"]
  P []
  let genSend := method.ClientStreaming
  let genRecv := method.ServerStreaming
  let genCloseAndRecv := !method.ServerStreaming
  -- Stream auxiliary types and methods.
  P ["type ", servName, "_", methName, "Client interface \x7b"]
  if genSend then
    P ["Send(*", inType, ") error"]
  if genRecv then
    P ["Recv() (*", outType, ", error)"]
  if genCloseAndRecv then
    P ["CloseAndRecv() (*", outType, ", error)"]
  P [← getKitePkg, ".ClientStream"]
  P ["\x7d"]
  P []
  P ["type ", streamType, " struct \x7b"]
  P [← getKitePkg, ".ClientStream"]
  P ["\x7d"]
  P []
  if genSend then
    P ["func (x *", streamType, ") Send(m *", inType, ") error \x7b"]
    P ["return x.ClientStream.SendMsg(m)"]
    P ["\x7d"]
    P []
  if genRecv then
    P ["func (x *", streamType, ") Recv() (*", outType, ", error) \x7b"]
    P ["m := new(", outType, ")"]
    P ["if err := x.ClientStream.RecvMsg(m); err != nil \x7b return nil, err \x7d"]
    P ["return m, nil"]
    P ["\x7d"]
    P []
  if genCloseAndRecv then
    P ["func (x *", streamType, ") CloseAndRecv() (*", outType, ", error) \x7b"]
    P ["if err := x.ClientStream.CloseSend(); err != nil \x7b return nil, err \x7d"]
    P ["m := new(", outType, ")"]
    P ["if err := x.ClientStream.RecvMsg(m); err != nil \x7b return nil, err \x7d"]
    P ["return m, nil"]
    P ["\x7d"]
    P []

/-! ## Server side -/

/-- Go `generateServerMethodConcrete`. -/
def generateServerMethodConcrete (h : Host) (servName : String)
    (method : MethodDescriptorProto) : Gen Unit := do
  let header ← generateServerSignatureWithParamNames h servName method
  P ["func (*Unimplemented", servName, "Server) ", header, " \x7b"]
  let mut nilArg := ""
  if !method.ServerStreaming && !method.ClientStreaming then
    nilArg := "nil, "
  let methName := h.CamelCase method.Name
  let statusPkg ← AddImport h statusPkgPath
  let codePkg ← AddImport h codePkgPath
  P ["return ", nilArg, statusPkg, ".Errorf(", codePkg, ".Unimplemented, \"method ", methName,
    " not implemented\")"]
  P ["\x7d"]

/-- The loop of `generateUnimplementedServer` over the methods of the service. -/
def generateUnimplementedServer.methods (h : Host) (servName : String) :
    List MethodDescriptorProto → Gen Unit
  | [] => pure ()
  | method :: rest => do
    generateServerMethodConcrete h servName method
    generateUnimplementedServer.methods h servName rest

/-- Go `generateUnimplementedServer`. -/
def generateUnimplementedServer (h : Host) (servName : String)
    (service : ServiceDescriptorProto) : Gen Unit := do
  let serverType := servName ++ "Server"
  P ["// Unimplemented", serverType, " can be embedded to have forward compatible implementations."]
  P ["type Unimplemented", serverType, " struct \x7b"]
  P ["\x7d"]
  P []
  -- Unimplemented<service_name>Server's concrete methods
  generateUnimplementedServer.methods h servName service.Method
  P []

/-- Go `generateServerMethod`; the result is the name of the emitted handler. -/
def generateServerMethod (h : Host) (servName fullServName : String)
    (method : MethodDescriptorProto) : Gen String := do
  let methName := h.CamelCase method.Name
  let hname := "_" ++ servName ++ "_" ++ methName ++ "_Handler"
  let inType ← typeName h method.InputType
  let outType ← typeName h method.OutputType
  if !method.ServerStreaming && !method.ClientStreaming then
    P ["func ", hname, "(srv interface\x7b\x7d, ctx ", ← getContextPkg,
      ".Context, dec func(interface\x7b\x7d) error, interceptor ", ← getKitePkg,
      ".UnaryServerInterceptor) (interface\x7b\x7d, error) \x7b"]
    P ["in := new(", inType, ")"]
    P ["if err := dec(in); err != nil \x7b return nil, err \x7d"]
    P ["if interceptor == nil \x7b return srv.(", servName, "Server).", methName, "(ctx, in) \x7d"]
    P ["info := &", ← getKitePkg, ".UnaryServerInfo\x7b"]
    P ["Server: srv,"]
    P ["FullMethod: ", h.Quote ("/" ++ fullServName ++ "/" ++ methName), ","]
    P ["\x7d"]
    P ["handler := func(ctx ", ← getContextPkg,
      ".Context, req interface\x7b\x7d) (interface\x7b\x7d, error) \x7b"]
    P ["return srv.(", servName, "Server).", methName, "(ctx, req.(*", inType, "))"]
    P ["\x7d"]
    P ["return interceptor(ctx, in, info, handler)"]
    P ["\x7d"]
    P []
    return hname
  let streamType := (← Gen.ofOption (unexport servName)) ++ methName ++ "Server"
  P ["func ", hname, "(srv interface\x7b\x7d, stream ", ← getKitePkg, ".ServerStream) error \x7b"]
  if !method.ClientStreaming then
    P ["m := new(", inType, ")"]
    P ["if err := stream.RecvMsg(m); err != nil \x7b return err \x7d"]
    P ["return srv.(", servName, "Server).", methName, "(m, &", streamType, "\x7bstream\x7d)"]
  else
    P ["return srv.(", servName, "Server).", methName, "(&", streamType, "\x7bstream\x7d)"]
  P ["\x7d"]
  P []
  let genSend := method.ServerStreaming
  let genSendAndClose := !method.ServerStreaming
  let genRecv := method.ClientStreaming
  -- Stream auxiliary types and methods.
  P ["type ", servName, "_", methName, "Server interface \x7b"]
  if genSend then
    P ["Send(*", outType, ") error"]
  if genSendAndClose then
    P ["SendAndClose(*", outType, ") error"]
  if genRecv then
    P ["Recv() (*", inType, ", error)"]
  P [← getKitePkg, ".ServerStream"]
  P ["\x7d"]
  P []
  P ["type ", streamType, " struct \x7b"]
  P [← getKitePkg, ".ServerStream"]
  P ["\x7d"]
  P []
  if genSend then
    P ["func (x *", streamType, ") Send(m *", outType, ") error \x7b"]
    P ["return x.ServerStream.SendMsg(m)"]
    P ["\x7d"]
    P []
  if genSendAndClose then
    P ["func (x *", streamType, ") SendAndClose(m *", outType, ") error \x7b"]
    P ["return x.ServerStream.SendMsg(m)"]
    P ["\x7d"]
    P []
  if genRecv then
    P ["func (x *", streamType, ") Recv() (*", inType, ", error) \x7b"]
    P ["m := new(", inType, ")"]
    P ["if err := x.ServerStream.RecvMsg(m); err != nil \x7b return nil, err \x7d"]
    P ["return m, nil"]
    P ["\x7d"]
    P []
  return hname

/-! ## Service -/

/-- The loop of `generateService` that fills the client interface (lines 129-136). -/
def generateService.clientInterface (h : Host) (path servName : String) :
    List MethodDescriptorProto → Nat → Gen Unit
  | [], _ => pure ()
  | method :: rest, i => do
    let _ ← PrintComments h (path ++ ",2," ++ toString i) -- 2 means method in a service.
    if method.Deprecated then
      P ["//"]
      P [deprecationComment]
    P [← generateClientSignature h servName method]
    generateService.clientInterface h path servName rest (i + 1)

/-- The loop of `generateService` over the client method implementations (lines 158-170);
`methodIndex` and `streamIndex` are the two counters declared at line 155. -/
def generateService.clientMethods (h : Host) (servName fullServName serviceDescVar : String) :
    List MethodDescriptorProto → Nat → Nat → Gen Unit
  | [], _, _ => pure ()
  | method :: rest, methodIndex, streamIndex => do
    if !method.ServerStreaming && !method.ClientStreaming then
      -- Unary RPC method
      let descExpr := "&" ++ serviceDescVar ++ ".Methods[" ++ toString methodIndex ++ "]"
      generateClientMethod h servName fullServName serviceDescVar method descExpr
      generateService.clientMethods h servName fullServName serviceDescVar rest
        (methodIndex + 1) streamIndex
    else
      -- Streaming RPC method
      let descExpr := "&" ++ serviceDescVar ++ ".Streams[" ++ toString streamIndex ++ "]"
      generateClientMethod h servName fullServName serviceDescVar method descExpr
      generateService.clientMethods h servName fullServName serviceDescVar rest
        methodIndex (streamIndex + 1)

/-- The loop of `generateService` that fills the server interface (lines 180-187). -/
def generateService.serverInterface (h : Host) (path servName : String) :
    List MethodDescriptorProto → Nat → Gen Unit
  | [], _ => pure ()
  | method :: rest, i => do
    let _ ← PrintComments h (path ++ ",2," ++ toString i) -- 2 means method in a service.
    if method.Deprecated then
      P ["//"]
      P [deprecationComment]
    P [← generateServerSignature h servName method]
    generateService.serverInterface h path servName rest (i + 1)

/-- The loop of `generateService` over the server handlers (lines 207-211): it appends the
name of each emitted handler to `handlerNames`. -/
def generateService.serverMethods (h : Host) (servName fullServName : String) :
    List MethodDescriptorProto → List String → Gen (List String)
  | [], handlerNames => pure handlerNames
  | method :: rest, handlerNames => do
    let hname ← generateServerMethod h servName fullServName method
    generateService.serverMethods h servName fullServName rest (handlerNames ++ [hname])

/-- The loop of `generateService` that fills `Methods` of the descriptor (lines 218-226). -/
def generateService.methodDescs (h : Host) (handlerNames : List String) :
    List MethodDescriptorProto → Nat → Gen Unit
  | [], _ => pure ()
  | method :: rest, i => do
    if method.ServerStreaming || method.ClientStreaming then
      generateService.methodDescs h handlerNames rest (i + 1)
    else
      P ["\x7b"]
      P ["MethodName: ", h.Quote method.Name, ","]
      P ["Handler: ", ← Gen.ofOption handlerNames[i]?, ","]
      P ["\x7d,"]
      generateService.methodDescs h handlerNames rest (i + 1)

/-- The loop of `generateService` that fills `Streams` of the descriptor (lines 229-243). -/
def generateService.streamDescs (h : Host) (handlerNames : List String) :
    List MethodDescriptorProto → Nat → Gen Unit
  | [], _ => pure ()
  | method :: rest, i => do
    if !method.ServerStreaming && !method.ClientStreaming then
      generateService.streamDescs h handlerNames rest (i + 1)
    else
      P ["\x7b"]
      P ["StreamName: ", h.Quote method.Name, ","]
      P ["Handler: ", ← Gen.ofOption handlerNames[i]?, ","]
      if method.ServerStreaming then
        P ["ServerStreams: true,"]
      if method.ClientStreaming then
        P ["ClientStreams: true,"]
      P ["\x7d,"]
      generateService.streamDescs h handlerNames rest (i + 1)

/-- The end of `generateService` (lines 213-247): the service descriptor table. -/
def generateService.serviceDesc (h : Host) (file : FileDescriptor)
    (service : ServiceDescriptorProto) (fullServName serverType serviceDescVar : String)
    (handlerNames : List String) : Gen Unit := do
  P ["var ", serviceDescVar, " = ", ← getKitePkg, ".ServiceDesc \x7b"]
  P ["ServiceName: ", h.Quote fullServName, ","]
  P ["HandlerType: (*", serverType, ")(nil),"]
  P ["Methods: []", ← getKitePkg, ".MethodDesc\x7b"]
  generateService.methodDescs h handlerNames service.Method 0
  P ["\x7d,"]
  P ["Streams: []", ← getKitePkg, ".StreamDesc\x7b"]
  generateService.streamDescs h handlerNames service.Method 0
  P ["\x7d,"]
  P ["Metadata: \"", file.Name, "\","]
  P ["\x7d"]
  P []

/-- Go `generateService`: generates all the code for the named service; its last part, the
descriptor table, is `generateService.serviceDesc`. -/
def generateService (h : Host) (file : FileDescriptor) (service : ServiceDescriptorProto)
    (index : Nat) : Gen Unit := do
  let path := "6," ++ toString index -- 6 means service.
  let origServName := service.Name
  let mut fullServName := origServName
  if file.Package != "" then
    fullServName := file.Package ++ "." ++ fullServName
  let servName := h.CamelCase origServName
  let deprecated := service.Deprecated
  P []
  P ["// " ++ servName ++ "Client is the client API for " ++ servName ++ " service.\n//\n"
    ++ "// For semantics around ctx use and closing/ending streaming RPCs, please refer to "
    ++ "https://godoc.org/google.golang.org/grpc#ClientConn.NewStream."]
  -- Client interface.
  if deprecated then
    P ["//"]
    P [deprecationComment]
  P ["type ", servName, "Client interface \x7b"]
  generateService.clientInterface h path servName service.Method 0
  P ["\x7d"]
  P []
  -- Client structure.
  P ["type ", ← Gen.ofOption (unexport servName), "Client struct \x7b"]
  P ["cc ", ← getKitePkg, ".ClientConnInterface"]
  P ["\x7d"]
  P []
  -- NewClient factory.
  if deprecated then
    P [deprecationComment]
  P ["func New", servName, "Client (cc ", ← getKitePkg, ".ClientConnInterface) ", servName,
    "Client \x7b"]
  P ["return &", ← Gen.ofOption (unexport servName), "Client\x7bcc\x7d"]
  P ["\x7d"]
  P []
  let serviceDescVar := "_" ++ servName ++ "_serviceDesc"
  -- Client method implementations.
  generateService.clientMethods h servName fullServName serviceDescVar service.Method 0 0
  -- Server interface.
  let serverType := servName ++ "Server"
  P ["// ", serverType, " is the server API for ", servName, " service."]
  if deprecated then
    P ["//"]
    P [deprecationComment]
  P ["type ", serverType, " interface \x7b"]
  generateService.serverInterface h path servName service.Method 0
  P ["\x7d"]
  P []
  -- Server Unimplemented struct for forward compatibility.
  if deprecated then
    P [deprecationComment]
  generateUnimplementedServer h servName service
  -- Server registration.
  if deprecated then
    P [deprecationComment]
  P ["func Register", servName, "Server(s *", ← getKitePkg, ".Server, srv ", serverType, ") \x7b"]
  P ["s.RegisterService(&", serviceDescVar, ", srv)"]
  P ["\x7d"]
  P []
  -- Server handler implementations.
  let handlerNames ← generateService.serverMethods h servName fullServName service.Method []
  -- Service descriptor.
  generateService.serviceDesc h file service fullServName serverType serviceDescVar handlerNames

/-! ## File -/

/-- The loop of `Generate` over the services of the file (lines 87-89). -/
def Generate.services (h : Host) (file : FileDescriptor) :
    List ServiceDescriptorProto → Nat → Gen Unit
  | [], _ => pure ()
  | service :: rest, i => do
    generateService h file service i
    Generate.services h file rest (i + 1)

/-- Go `Generate`. -/
def Generate (h : Host) (file : FileDescriptor) : Gen Unit := do
  if file.Service.length == 0 then
    return
  setContextPkg (← AddImport h contextPkgPath)
  setKitePkg (← AddImport h kitePkgPath)
  P ["// Reference imports to suppress errors if they are not otherwise used."]
  P ["var _ ", ← getContextPkg, ".Context"]
  P ["var _ ", ← getKitePkg, ".ClientConnInterface"]
  P []
  -- Assert version compatibility.
  P ["// This is a compile-time assertion to ensure that this generated file"]
  P ["// is compatible with the k.Pc package it is being compiled against."]
  P ["const _ = ", ← getKitePkg, ".SupportPackageIsVersion", toString generatedCodeVersion]
  P []
  Generate.services h file file.Service 0

/-- Go `GenerateImports`: empty body. -/
def GenerateImports (_ : FileDescriptor) : Gen Unit := pure ()

/-! ## A small host and example descriptors -/

/-- A host with identity naming, for running the generator on examples. -/
def plainHost : Host where
  CamelCase := fun s => s
  TypeName := fun s => s
  GoPackageName := fun p => if p == "context" then "context" else "kiteg"
  Quote := fun s => "\"" ++ s ++ "\""
  Comments := fun _ => none

/-- The empty state the host hands over before `Generate`. -/
def State.empty : State :=
  { out := [], addedImports := [], usedTypes := [], contextPkg := "", kitePkg := "" }

/-! ## Vocabulary of the specification -/

/-- A method is unary when neither side streams. -/
def isUnary (m : MethodDescriptorProto) : Bool := !m.ServerStreaming && !m.ClientStreaming

/-- Parameter list of a server signature in the words of the specification: the context
only for a unary method, the request unless the client streams, the stream when either side
streams; the three tags are put in front of the three parameters. -/
def serverParams (h : Host) (ctxPkg servName : String) (m : MethodDescriptorProto)
    (tagCtx tagReq tagSrv : String) : List String :=
  (if isUnary m then [tagCtx ++ (ctxPkg ++ ".Context")] else [])
    ++ (if m.ClientStreaming then [] else [tagReq ++ ("*" ++ h.TypeName m.InputType)])
    ++ (if isUnary m then []
        else [tagSrv ++ (servName ++ "_" ++ h.CamelCase m.Name ++ "Server")])

/-- Return type of a server signature in the words of the specification. -/
def serverReturn (h : Host) (m : MethodDescriptorProto) : String :=
  if isUnary m then "(*" ++ h.TypeName m.OutputType ++ ", error)" else "error"

/-- The lines a computation appends to the sink when it runs from `k`. -/
def emitted {α : Type} (x : Gen α) (k : State) : List String :=
  (x k).2.out.drop k.out.length

/-- The lines of a text strictly between the first line equal to `opening` and the first
line equal to `closing` after it. -/
def blockAfter (opening closing : String) : List String → List String
  | [] => []
  | l :: rest =>
    if l = opening then rest.takeWhile (fun x => x != closing)
    else blockAfter opening closing rest

/-- Member set of the client stream interface in the words of the specification: `Send`
when the client streams, `Recv` when the server streams, `CloseAndRecv` when it does not,
then the embedded client stream. -/
def clientStreamMembers (h : Host) (kitePkg : String) (m : MethodDescriptorProto) :
    List String :=
  (if m.ClientStreaming then ["Send(*" ++ h.TypeName m.InputType ++ ") error"] else [])
    ++ (if m.ServerStreaming then ["Recv() (*" ++ h.TypeName m.OutputType ++ ", error)"]
        else ["CloseAndRecv() (*" ++ h.TypeName m.OutputType ++ ", error)"])
    ++ [kitePkg ++ ".ClientStream"]

/-- Member set of the server stream interface in the words of the specification: `Send`
when the server streams, `SendAndClose` when it does not, `Recv` when the client streams,
then the embedded server stream. -/
def serverStreamMembers (h : Host) (kitePkg : String) (m : MethodDescriptorProto) :
    List String :=
  (if m.ServerStreaming then ["Send(*" ++ h.TypeName m.OutputType ++ ") error"]
    else ["SendAndClose(*" ++ h.TypeName m.OutputType ++ ") error"])
    ++ (if m.ClientStreaming then ["Recv() (*" ++ h.TypeName m.InputType ++ ", error)"] else [])
    ++ [kitePkg ++ ".ServerStream"]

/-- A bidirectional streaming method. -/
def chatMethod : MethodDescriptorProto :=
  { Name := "Chat", InputType := "Msg", OutputType := "Msg", ClientStreaming := true,
    ServerStreaming := true, Deprecated := false }

/-- A unary method. -/
def pingMethod : MethodDescriptorProto :=
  { Name := "Ping", InputType := "PingRequest", OutputType := "PingResponse",
    ClientStreaming := false, ServerStreaming := false, Deprecated := false }

/-- The state `k1` keeps the package variables of `k` and extends its sink. -/
def State.Extends (k k1 : State) : Prop :=
  k1.contextPkg = k.contextPkg ∧ k1.kitePkg = k.kitePkg ∧ k.out <+: k1.out

/-- The state a computation reaches from `k`. -/
def Gen.exec {α : Type} (x : Gen α) (k : State) : State := (x k).2

/-- The computation keeps the package variables and only appends to the sink, whether it
completes or panics. -/
def Gen.Frame {α : Type} (x : Gen α) : Prop := ∀ k : State, k.Extends (x k).2

/-- The computation completes from every state. -/
def Gen.Ok {α : Type} (x : Gen α) : Prop := ∀ k : State, ∃ a, (x k).1 = some a

/-- Name of the dispatch handler of a method: `_<Service>_<Method>_Handler`. -/
def handlerName (h : Host) (servName : String) (m : MethodDescriptorProto) : String :=
  "_" ++ servName ++ "_" ++ h.CamelCase m.Name ++ "_Handler"

/-- Record of a unary method in the `Methods` list of the descriptor table. -/
def methodRecord (h : Host) (hname : String) (m : MethodDescriptorProto) : List String :=
  ["\x7b", "MethodName: " ++ h.Quote m.Name ++ ",", "Handler: " ++ hname ++ ",", "\x7d,"]

/-- Record of a streaming method in the `Streams` list of the descriptor table. -/
def streamRecord (h : Host) (hname : String) (m : MethodDescriptorProto) : List String :=
  ["\x7b", "StreamName: " ++ h.Quote m.Name ++ ",", "Handler: " ++ hname ++ ","]
    ++ (if m.ServerStreaming then ["ServerStreams: true,"] else [])
    ++ (if m.ClientStreaming then ["ClientStreams: true,"] else [])
    ++ ["\x7d,"]

/-- The unary methods of a list, in declaration order. -/
def unaryMethods (ms : List MethodDescriptorProto) : List MethodDescriptorProto :=
  ms.filter isUnary

/-- The streaming methods of a list, in declaration order. -/
def streamMethods (ms : List MethodDescriptorProto) : List MethodDescriptorProto :=
  ms.filter (fun m => !isUnary m)

/-- Package-qualified name of a service (lines 110-114 of kite.go). -/
def fullServiceName (file : FileDescriptor) (service : ServiceDescriptorProto) : String :=
  if file.Package != "" then file.Package ++ "." ++ service.Name else service.Name

/-- The service descriptor table in the words of the specification: a header, the `Methods`
list with one record per unary method, the `Streams` list with one record per streaming
method, both in declaration order, and the closing lines. -/
def descriptorTable (h : Host) (kitePkg : String) (file : FileDescriptor)
    (service : ServiceDescriptorProto) : List String :=
  ["var " ++ ("_" ++ h.CamelCase service.Name ++ "_serviceDesc") ++ " = " ++ kitePkg
      ++ ".ServiceDesc \x7b",
    "ServiceName: " ++ h.Quote (fullServiceName file service) ++ ",",
    "HandlerType: (*" ++ (h.CamelCase service.Name ++ "Server") ++ ")(nil),",
    "Methods: []" ++ kitePkg ++ ".MethodDesc\x7b"]
    ++ ((unaryMethods service.Method).map
          (fun m => methodRecord h (handlerName h (h.CamelCase service.Name) m) m)).flatten
    ++ ["\x7d,", "Streams: []" ++ kitePkg ++ ".StreamDesc\x7b"]
    ++ ((streamMethods service.Method).map
          (fun m => streamRecord h (handlerName h (h.CamelCase service.Name) m) m)).flatten
    ++ ["\x7d,", "Metadata: \"" ++ file.Name ++ "\",", "\x7d", ""]

/-- A service with one unary method. -/
def pingService : ServiceDescriptorProto :=
  { Name := "Ping", Method := [pingMethod], Deprecated := false }

/-- A service with one bidirectional streaming method. -/
def chatService : ServiceDescriptorProto :=
  { Name := "Chat", Method := [chatMethod], Deprecated := false }

/-- A file with the service `Ping`. -/
def pingFile : FileDescriptor :=
  { Name := "ping.proto", Package := "demo", Service := [pingService] }

/-- A file without services. -/
def emptyFile : FileDescriptor :=
  { Name := "types.proto", Package := "demo", Service := [] }

/-- The `descExpr` values that the loop over the client method implementations computes
(lines 155-168 of kite.go), in declaration order, from the given counter values. -/
def generateService.descExprs (serviceDescVar : String) :
    List MethodDescriptorProto → Nat → Nat → List String
  | [], _, _ => []
  | method :: rest, methodIndex, streamIndex =>
    if !method.ServerStreaming && !method.ClientStreaming then
      ("&" ++ serviceDescVar ++ ".Methods[" ++ toString methodIndex ++ "]")
        :: generateService.descExprs serviceDescVar rest (methodIndex + 1) streamIndex
    else
      ("&" ++ serviceDescVar ++ ".Streams[" ++ toString streamIndex ++ "]")
        :: generateService.descExprs serviceDescVar rest methodIndex (streamIndex + 1)

/-- The calls `generateClientMethod (…, method, descExpr)` for a list of methods paired with
their `descExpr`. -/
def generateService.clientMethodsWith (h : Host) (servName fullServName serviceDescVar : String) :
    List (MethodDescriptorProto × String) → Gen Unit
  | [] => pure ()
  | (method, descExpr) :: rest => do
    generateClientMethod h servName fullServName serviceDescVar method descExpr
    generateService.clientMethodsWith h servName fullServName serviceDescVar rest

/-- A deprecated client-streaming method. -/
def uploadMethod : MethodDescriptorProto :=
  { Name := "Upload", InputType := "Chunk", OutputType := "Ack", ClientStreaming := true,
    ServerStreaming := false, Deprecated := true }

/-- A second unary method. -/
def statMethod : MethodDescriptorProto :=
  { Name := "Stat", InputType := "Empty", OutputType := "Info", ClientStreaming := false,
    ServerStreaming := false, Deprecated := false }

/-- A unary, a bidirectional, a client-streaming and a unary method. -/
def mixedMethods : List MethodDescriptorProto :=
  [pingMethod, chatMethod, uploadMethod, statMethod]

/-- A service with the methods `mixedMethods`. -/
def mixedService : ServiceDescriptorProto :=
  { Name := "Mixed", Method := mixedMethods, Deprecated := false }

/-- The lines the generator puts ahead of the signature of a deprecated method. -/
def deprecationLines (m : MethodDescriptorProto) : List String :=
  if m.Deprecated then ["//", deprecationComment] else []

/-- Body of an interface when the source has no comments: for each method the deprecation
lines, if any, then its signature line. -/
def interfaceBody (sig : MethodDescriptorProto → String) (ms : List MethodDescriptorProto) :
    List String :=
  (ms.map (fun m => deprecationLines m ++ [sig m])).flatten

/-- The text of the client signature of a method. -/
def clientSignature (h : Host) (ctxPkg kitePkg servName : String)
    (m : MethodDescriptorProto) : String :=
  h.CamelCase m.Name ++ "(ctx " ++ ctxPkg ++ ".Context"
    ++ (if m.ClientStreaming then "" else ", in *" ++ h.TypeName m.InputType)
    ++ ", opts ..." ++ kitePkg ++ ".CallOption) ("
    ++ (if isUnary m then "*" ++ h.TypeName m.OutputType
        else servName ++ "_" ++ h.CamelCase m.Name ++ "Client")
    ++ ", error)"

/-- The text of the positional server signature of a method. -/
def serverSignature (h : Host) (ctxPkg servName : String) (m : MethodDescriptorProto) :
    String :=
  h.CamelCase m.Name ++ "(" ++ joinComma (serverParams h ctxPkg servName m "" "" "") ++ ") "
    ++ serverReturn h m

/-- The text of the server signature of a method with parameter names. -/
def serverSignatureWithParamNames (h : Host) (ctxPkg servName : String)
    (m : MethodDescriptorProto) : String :=
  h.CamelCase m.Name ++ "("
    ++ joinComma (serverParams h ctxPkg servName m "ctx " "req " "srv ") ++ ") "
    ++ serverReturn h m

/-- A return statement of a stub: the nil response pointer first when `withNil`, then the
error value built by `Errorf` of the status package with the code `Unimplemented` and the
given message. -/
def stubReturn (withNil : Bool) (statusPkg codePkg message : String) : String :=
  "return " ++ (if withNil then "nil, " else "") ++ statusPkg ++ ".Errorf(" ++ codePkg
    ++ ".Unimplemented, \"" ++ message ++ "\")"

/-- The stub of a method on `Unimplemented<Service>Server`, as three lines: the header with
the receiver and the signature with parameter names, the return statement, the closing
brace. -/
def stubLines (h : Host) (ctxPkg servName : String) (m : MethodDescriptorProto) :
    List String :=
  ["func (*Unimplemented" ++ servName ++ "Server) "
      ++ serverSignatureWithParamNames h ctxPkg servName m ++ " \x7b",
    stubReturn (isUnary m) (h.GoPackageName statusPkgPath) (h.GoPackageName codePkgPath)
      ("method " ++ h.CamelCase m.Name ++ " not implemented"),
    "\x7d"]

/-! ## The signature builders over an arbitrary reserved-name table

The three builders read the package variable `reservedClientName`.  Below, the lookup in that
table is the parameter `reserved`; the builders above are the instances at the table as
shipped. -/

/-- Go `generateClientSignature`, the lookup `reservedClientName[methName]` being `reserved`. -/
def generateClientSignature.withTable (reserved : String → Bool) (h : Host)
    (servName : String) (method : MethodDescriptorProto) : Gen String := do
  let origMethName := method.Name
  let mut methName := h.CamelCase origMethName
  if reserved methName then
    methName := methName ++ "_"
  let mut reqArg := ", in *" ++ (← typeName h method.InputType)
  if method.ClientStreaming then
    reqArg := ""
  let mut respName := "*" ++ (← typeName h method.OutputType)
  if method.ServerStreaming || method.ClientStreaming then
    respName := servName ++ "_" ++ h.CamelCase origMethName ++ "Client"
  return methName ++ "(ctx " ++ (← getContextPkg) ++ ".Context" ++ reqArg ++ ", opts ..."
    ++ (← getKitePkg) ++ ".CallOption) (" ++ respName ++ ", error)"

/-- Go `generateServerSignatureWithParamNames`, the lookup `reservedClientName[methName]`
being `reserved`. -/
def generateServerSignatureWithParamNames.withTable (reserved : String → Bool) (h : Host)
    (servName : String) (method : MethodDescriptorProto) : Gen String := do
  let origMethName := method.Name
  let mut methName := h.CamelCase origMethName
  if reserved methName then
    methName := methName ++ "_"
  let mut reqArgs : List String := []
  let mut ret := "error"
  if !method.ServerStreaming && !method.ClientStreaming then
    reqArgs := reqArgs ++ ["ctx " ++ (← getContextPkg) ++ ".Context"]
    ret := "(*" ++ (← typeName h method.OutputType) ++ ", error)"
  if !method.ClientStreaming then
    reqArgs := reqArgs ++ ["req *" ++ (← typeName h method.InputType)]
  if method.ServerStreaming || method.ClientStreaming then
    reqArgs := reqArgs ++ ["srv " ++ servName ++ "_" ++ h.CamelCase origMethName ++ "Server"]
  return methName ++ "(" ++ joinComma reqArgs ++ ") " ++ ret

/-- Go `generateServerSignature`, the lookup `reservedClientName[methName]` being
`reserved`. -/
def generateServerSignature.withTable (reserved : String → Bool) (h : Host)
    (servName : String) (method : MethodDescriptorProto) : Gen String := do
  let origMethName := method.Name
  let mut methName := h.CamelCase origMethName
  if reserved methName then
    methName := methName ++ "_"
  let mut reqArgs : List String := []
  let mut ret := "error"
  if !method.ServerStreaming && !method.ClientStreaming then
    reqArgs := reqArgs ++ [(← getContextPkg) ++ ".Context"]
    ret := "(*" ++ (← typeName h method.OutputType) ++ ", error)"
  if !method.ClientStreaming then
    reqArgs := reqArgs ++ ["*" ++ (← typeName h method.InputType)]
  if method.ServerStreaming || method.ClientStreaming then
    reqArgs := reqArgs ++ [servName ++ "_" ++ h.CamelCase origMethName ++ "Server"]
  return methName ++ "(" ++ joinComma reqArgs ++ ") " ++ ret

/-- The method identifier in the words of the specification (`reservedSuffix`): the
camel-cased name, with one trailing underscore when the table reserves it. -/
def methodIdent (reserved : String → Bool) (h : Host) (m : MethodDescriptorProto) : String :=
  if reserved (h.CamelCase m.Name) then h.CamelCase m.Name ++ "_" else h.CamelCase m.Name

/-- A state with an empty sink in which both package variables are set, to the names that
`Generate` gives them under `plainHost`. -/
def readyState : State :=
  { out := [], addedImports := ["context", "git.dhgames.cn/svr_comm/kiteg"], usedTypes := [],
    contextPkg := "context", kitePkg := "kiteg" }

/-- A table that reserves the one name `Ping`. -/
def reservePing (s : String) : Bool := s == "Ping"

/-- A call of the method `ident` of the server implementation with the given arguments. -/
def serverCall (servName ident : String) (args : List String) : String :=
  "srv.(" ++ servName ++ "Server)." ++ ident ++ "(" ++ joinComma args ++ ")"

/-- The parameters of a server method, by role. -/
inductive Param where
  | ctx
  | request
  | stream
  deriving DecidableEq, Repr

/-- Parameter list of a server method by shape: context and request for a unary method,
request and stream for a method that only the server streams, the stream alone when the
client streams. -/
def callShape (m : MethodDescriptorProto) : List Param :=
  if isUnary m then [Param.ctx, Param.request]
  else if m.ClientStreaming then [Param.stream]
  else [Param.request, Param.stream]

/-- The text the positional server signature declares for a parameter. -/
def paramText (h : Host) (ctxPkg servName : String) (m : MethodDescriptorProto) :
    Param → String
  | Param.ctx => ctxPkg ++ ".Context"
  | Param.request => "*" ++ h.TypeName m.InputType
  | Param.stream => servName ++ "_" ++ h.CamelCase m.Name ++ "Server"

/-- The text a dispatch handler passes for a parameter: the context `ctx`; the request, which
is `in` in a unary handler (`req.(*<In>)` inside its `handler` closure) and the received
message `m` in a streaming one; the wrapper around the stream. -/
def argText (h : Host) (m : MethodDescriptorProto) (streamType : String) (inClosure : Bool) :
    Param → String
  | Param.ctx => "ctx"
  | Param.request =>
    if isUnary m then
      (if inClosure then "req.(*" ++ h.TypeName m.InputType ++ ")" else "in")
    else "m"
  | Param.stream => "&" ++ streamType ++ "\x7bstream\x7d"

/-- The lines of the dispatch handler of a method that call the server implementation, with
`ident` for the method they invoke and `streamType` for the stream wrapper struct: the direct
call and the call inside `handler` for a unary method, the one call otherwise. -/
def handlerCalls (h : Host) (servName ident streamType : String)
    (m : MethodDescriptorProto) : List String :=
  if isUnary m then
    ["if interceptor == nil \x7b return "
        ++ serverCall servName ident ((callShape m).map (argText h m streamType false))
        ++ " \x7d",
      "return " ++ serverCall servName ident ((callShape m).map (argText h m streamType true))]
  else
    ["return " ++ serverCall servName ident ((callShape m).map (argText h m streamType false))]

/-! ## Camel-casing -/

/-- Go `isASCIILower` of the generator package. -/
def isASCIILower (c : Char) : Bool := decide (97 ≤ c.toNat) && decide (c.toNat ≤ 122)

/-- Go `isASCIIDigit` of the generator package. -/
def isASCIIDigit (c : Char) : Bool := decide (48 ≤ c.toNat) && decide (c.toNat ≤ 57)

/-- An upper-case ASCII letter. -/
def isASCIIUpper (c : Char) : Bool := decide (65 ≤ c.toNat) && decide (c.toNat ≤ 90)

/-- The loop of `CamelCase` over the bytes that are left; `inWord` says that a word has begun
and that its lower-case letters are copied as they are. -/
def CamelCase.loop : Bool → List Char → List Char
  | _, [] => []
  | inWord, c :: rest =>
    if inWord && isASCIILower c then
      c :: CamelCase.loop true rest -- accept the lower-case sequence that follows
    else if c == '_' && (match rest with
        | next :: _ => isASCIILower next
        | [] => false) then
      CamelCase.loop false rest -- skip the underscore
    else if isASCIIDigit c then
      c :: CamelCase.loop false rest
    else
      (if isASCIILower c then c.toUpper else c) :: CamelCase.loop true rest

/-- Modelled from the spec: `generator.CamelCase` of the package `protoc-gen-go/generator` is
not under src/.  The specification calls it `camel`: schema-name to exported identifier
casing, deterministic, idempotent on already-camel names.  The model is the word rule of that
helper: the empty name stays empty; a leading underscore becomes `X`; an underscore in front
of a lower-case letter is dropped; the first letter of every word (at the start, after an
underscore, after a digit) is raised and the lower-case letters after it are kept; digits and
every other byte are copied. -/
def CamelCase (s : String) : String :=
  match s.data with
  | [] => ""
  | c :: rest =>
    if c == '_' then String.mk ('X' :: CamelCase.loop false rest)
    else String.mk (CamelCase.loop false (c :: rest))

/-- The host of `plainHost` with the camel-casing of the generator package. -/
def goHost : Host :=
  { plainHost with CamelCase := CamelCase }

/-- Name of a stream interface of a method: `<Service>_<Method>Client` or
`<Service>_<Method>Server`, `side` being `Client` or `Server`. -/
def streamInterfaceName (h : Host) (servName side : String) (m : MethodDescriptorProto) :
    String :=
  servName ++ "_" ++ h.CamelCase m.Name ++ side

/-- A unary method with a snake-case name. -/
def getUserSnake : MethodDescriptorProto :=
  { Name := "get_user", InputType := "UserRequest", OutputType := "User",
    ClientStreaming := false, ServerStreaming := false, Deprecated := false }

/-- A unary method with the camel-case form of that name. -/
def getUserCamel : MethodDescriptorProto :=
  { Name := "GetUser", InputType := "UserRequest", OutputType := "User",
    ClientStreaming := false, ServerStreaming := false, Deprecated := false }

/-- A unary method with another snake-case name. -/
def listUsers : MethodDescriptorProto :=
  { Name := "list_users", InputType := "Empty", OutputType := "Users",
    ClientStreaming := false, ServerStreaming := false, Deprecated := false }

/-- The first character of a string is replaced by its lower-case form: `unexport` in the
words of the specification; undefined on the empty string. -/
def lowerFirst (s : String) : Option String :=
  match s.data with
  | [] => none
  | c :: rest => some (String.mk (c.toLower :: rest))

/-- The Go string `Éa`: the two bytes of `É` in UTF-8, then `a`. -/
def accented : String := String.mk [Char.ofNat 0xC3, Char.ofNat 0x89, 'a']

/-- A service whose one method has the snake-case name `get_user`. -/
def usersService : ServiceDescriptorProto :=
  { Name := "Users", Method := [getUserSnake], Deprecated := false }

/-- A file with the service `Users` in the package `demo`. -/
def usersFile : FileDescriptor :=
  { Name := "users.proto", Package := "demo", Service := [usersService] }

/-- A server-streaming method. -/
def watchMethod : MethodDescriptorProto :=
  { Name := "Watch", InputType := "Query", OutputType := "Event", ClientStreaming := false,
    ServerStreaming := true, Deprecated := false }

/-! ## The constructor pass (internal/gennew/new.go) -/

/-- Go `protogen.GoIdent`: an identifier and the package it lives in. -/
structure GoIdent where
  GoName : String
  GoImportPath : String
  deriving DecidableEq, Repr

/-- Go `protogen.Message`: the field that `GenNew` reads. -/
structure Message where
  GoIdent : GoIdent
  deriving DecidableEq, Repr

/-- Go `protogen.File`: the field that `GenNew` reads. -/
structure File where
  Messages : List Message
  deriving DecidableEq, Repr

/-- An argument of `g.P`: a text, or an identifier that is printed qualified. -/
inductive Arg where
  | text (s : String)
  | ident (i : GoIdent)
  deriving DecidableEq, Repr

/-- Go `protogen.GeneratedFile`: the lines written so far, one per call of `P`. -/
structure GeneratedFile where
  buf : List String
  deriving DecidableEq, Repr

/-- The printed form of an argument; `qualified` is `g.QualifiedGoIdent` of the library. -/
def Arg.print (qualified : GoIdent → String) : Arg → String
  | Arg.text s => s
  | Arg.ident i => qualified i

/-- Go `g.P (args...)` of `protogen.GeneratedFile`: prints the arguments one after the other
and ends the line. -/
def GeneratedFile.P (qualified : GoIdent → String) (g : GeneratedFile) (args : List Arg) :
    GeneratedFile :=
  { g with buf := g.buf ++ [atoms (args.map (Arg.print qualified))] }

/-- The loop of `GenNew` over the messages of the file.  The slice `GoName[0:3]` is read only
when the name is longer than three bytes, so it is never out of range. -/
def GenNew.messages (qualified : GoIdent → String) :
    List Message → GeneratedFile → GeneratedFile
  | [], g => g
  | message :: rest, g =>
    if message.GoIdent.GoName.length > 3
        && String.mk (message.GoIdent.GoName.data.take 3) == "Req" then
      GenNew.messages qualified rest
        (g.P qualified [Arg.text "func (m *", Arg.ident message.GoIdent,
          Arg.text ") New() *", Arg.ident message.GoIdent, Arg.text "\x7b return &",
          Arg.ident message.GoIdent, Arg.text "\x7b\x7d \x7d"])
    else
      GenNew.messages qualified rest g

/-- Go `GenNew`; the plugin `gen` is not read. -/
def GenNew (qualified : GoIdent → String) (file : File) (g : GeneratedFile) : GeneratedFile :=
  GenNew.messages qualified file.Messages g

/-- A message gets a constructor, in the words of the claim: its Go name is strictly longer
than three characters and begins with `Req`. -/
def qualifies (message : Message) : Bool :=
  decide (3 < message.GoIdent.GoName.length)
    && "Req".data.isPrefixOf message.GoIdent.GoName.data

/-- The constructor line of a message. -/
def newLine (qualified : GoIdent → String) (message : Message) : String :=
  "func (m *" ++ qualified message.GoIdent ++ ") New() *" ++ qualified message.GoIdent
    ++ "\x7b return &" ++ qualified message.GoIdent ++ "\x7b\x7d \x7d"

/-- A message of the package `demo/pb` with the given Go name. -/
def messageNamed (name : String) : Message :=
  { GoIdent := { GoName := name, GoImportPath := "demo/pb" } }

/-- A file with the messages `ReqLogin`, `Req`, `LoginReq`, `Reply` and `ReqLogout`. -/
def sampleFile : File :=
  { Messages := [messageNamed "ReqLogin", messageNamed "Req", messageNamed "LoginReq",
      messageNamed "Reply", messageNamed "ReqLogout"] }

/-- Qualified form of an identifier inside its own package: the bare name. -/
def localIdent (i : GoIdent) : String := i.GoName

/-- What a method adds to the `Methods` list of the descriptor table: its record when it is
neither client-streaming nor server-streaming, nothing otherwise. -/
def methodsEntry (h : Host) (servName : String) (m : MethodDescriptorProto) : List String :=
  if m.ClientStreaming = false ∧ m.ServerStreaming = false then
    methodRecord h (handlerName h servName m) m
  else []

/-- What a method adds to the `Streams` list of the descriptor table: nothing when it is
neither client-streaming nor server-streaming, its record otherwise. -/
def streamsEntry (h : Host) (servName : String) (m : MethodDescriptorProto) : List String :=
  if m.ClientStreaming = false ∧ m.ServerStreaming = false then []
  else streamRecord h (handlerName h servName m) m

/-- Modelled from the spec: the text sink is supplied by the host, and the host's
`generator.P`, to which `k.P` forwards (kite.go line 57), is not under src/.  It returns at
once unless the flag `g.writeOutput` of the host is set, which the host does for the files it
was asked to generate and for no other; otherwise it writes the line to the buffer. -/
def hostP (writeOutput : Bool) (buf : List String) (line : String) : List String :=
  if !writeOutput then buf
  else buf ++ [line]

/-- The buffer of the host after the calls of `P` of one run, `printed` being the lines
handed to `P` in order; the flag does not change while the plugin runs. -/
def sinkAfter (writeOutput : Bool) (buf : List String) (printed : List String) : List String :=
  printed.foldl (hostP writeOutput) buf

/-! # Theorems -/

set_option maxHeartbeats 4000000

/-! ## Running a computation -/

@[simp] theorem Gen.pure_run {α : Type} (a : α) (k : State) :
    (pure a : Gen α) k = (some a, k) := rfl

@[simp] theorem Gen.bind_run {α β : Type} (x : Gen α) (f : α → Gen β) (k : State) :
    (x >>= f) k = match x k with
      | (some a, k1) => f a k1
      | (none, k1) => (none, k1) := rfl

@[simp] theorem Gen.ite_run {α : Type} (c : Prop) [Decidable c] (x y : Gen α) (k : State) :
    (if c then x else y) k = if c then x k else y k := by
  split <;> rfl

@[simp] theorem Gen.ofOption_run {α : Type} (o : Option α) (k : State) :
    Gen.ofOption o k = (o, k) := rfl

@[simp] theorem atoms_nil : atoms [] = "" := rfl

@[simp] theorem atoms_cons (a : String) (l : List String) : atoms (a :: l) = a ++ atoms l := rfl

@[simp] theorem append_empty_string (a : String) : a ++ "" = a := by
  apply String.ext; simp

@[simp] theorem empty_append_string (a : String) : "" ++ a = a := by
  apply String.ext; simp

@[simp] theorem P_run (args : List String) (k : State) :
    P args k = (some (), { k with out := k.out ++ [atoms args] }) := rfl

@[simp] theorem getContextPkg_run (k : State) : getContextPkg k = (some k.contextPkg, k) := rfl

@[simp] theorem getKitePkg_run (k : State) : getKitePkg k = (some k.kitePkg, k) := rfl

@[simp] theorem typeName_run (h : Host) (str : String) (k : State) :
    typeName h str k = (some (h.TypeName str), { k with usedTypes := k.usedTypes ++ [str] }) :=
  rfl

/-! ## Signatures -/

/-- C6: the client signature is `Name(ctx C.Context<in>, opts ...K.CallOption) (<Ret>, error)`
where `<in>` is the request parameter exactly when the method is not client-streaming and
`<Ret>` is the pointer to the output type exactly when the method is unary, the name of the
client stream interface otherwise. -/
theorem generateClientSignature_shape (h : Host) (servName : String)
    (m : MethodDescriptorProto) (k : State) :
    (generateClientSignature h servName m k).1 =
      some (h.CamelCase m.Name ++ "(ctx " ++ k.contextPkg ++ ".Context"
        ++ (if m.ClientStreaming then "" else ", in *" ++ h.TypeName m.InputType)
        ++ ", opts ..." ++ k.kitePkg ++ ".CallOption) ("
        ++ (if isUnary m then "*" ++ h.TypeName m.OutputType
            else servName ++ "_" ++ h.CamelCase m.Name ++ "Client")
        ++ ", error)") := by
  obtain ⟨name, inT, outT, cs, ss, dep⟩ := m
  cases cs <;> cases ss <;>
    simp [generateClientSignature, reservedClientName, isUnary]

/-- C7: both server signature builders yield `Name(<params>) <ret>` with the parameter list
and return type of the specification; the positional builder uses no tag, the named builder
the tags `ctx `, `req ` and `srv `. -/
theorem generateServerSignature_shape (h : Host) (servName : String)
    (m : MethodDescriptorProto) (k : State) :
    (generateServerSignature h servName m k).1 =
        some (h.CamelCase m.Name ++ "("
          ++ joinComma (serverParams h k.contextPkg servName m "" "" "") ++ ") "
          ++ serverReturn h m)
    ∧ (generateServerSignatureWithParamNames h servName m k).1 =
        some (h.CamelCase m.Name ++ "("
          ++ joinComma (serverParams h k.contextPkg servName m "ctx " "req " "srv ") ++ ") "
          ++ serverReturn h m) := by
  obtain ⟨name, inT, outT, cs, ss, dep⟩ := m
  cases cs <;> cases ss <;>
    simp [generateServerSignature, generateServerSignatureWithParamNames, reservedClientName,
      isUnary, serverParams, serverReturn, joinComma, String.ext_iff]

/-! ## Comparing lines -/

theorem unexport_of_ne {s : String} (hs : s ≠ "") : ∃ u, unexport s = some u := by
  obtain ⟨d⟩ := s
  cases d with
  | nil => exact absurd rfl hs
  | cons c rest => exact ⟨_, rfl⟩

theorem data_eq_of_eq {a b : String} (e : a = b) : a.data = b.data := by rw [e]

/-- Two lines that start with incomparable texts differ. -/
theorem append_eq_append_false (a b x y : String) (h1 : ¬ a.data <+: b.data)
    (h2 : ¬ b.data <+: a.data) : (a ++ x = b ++ y) = False := by
  simp only [eq_iff_iff, iff_false]
  intro e
  have e2 : a.data ++ x.data = b.data ++ y.data := by simpa using data_eq_of_eq e
  rcases List.prefix_or_prefix_of_prefix (List.prefix_append a.data x.data)
      (e2 ▸ List.prefix_append b.data y.data) with p | p
  · exact h1 p
  · exact h2 p

theorem eq_append_false (a b y : String) (h : ¬ b.data <+: a.data) : (a = b ++ y) = False := by
  simp only [eq_iff_iff, iff_false]
  intro e
  exact h ⟨y.data, by simpa using (data_eq_of_eq e).symm⟩

theorem append_eq_false (a x b : String) (h : ¬ a.data <+: b.data) : (a ++ x = b) = False := by
  simp only [eq_iff_iff, iff_false]
  intro e
  exact h ⟨x.data, by simpa using data_eq_of_eq e⟩

theorem lit_eq_false (a b : String) (h : a ≠ b) : (a = b) = False := eq_false h

theorem append_left_cancel_eq (a x y : String) : (a ++ x = a ++ y) = (x = y) := by
  simp only [String.ext_iff, String.data_append, List.append_cancel_left_eq]

/-- A line that ends with `a` differs from every text that `a` is not the end of. -/
theorem ends_eq_false (x a s : String) (h : ¬ a.data <:+ s.data) : (x ++ a = s) = False := by
  simp only [eq_iff_iff, iff_false]
  intro e
  exact h ⟨x.data, by simpa using data_eq_of_eq e⟩

theorem not_suffix_of_ends {a c : List Char} (z : List Char) (h1 : ¬ a <:+ c)
    (h2 : ¬ c <:+ a) : ¬ a <:+ z ++ c := by
  intro p
  rcases List.suffix_or_suffix_of_suffix p (List.suffix_append z c) with q | q
  · exact h1 q
  · exact h2 q

theorem ends_eq_lit_false (x a b : String) (h : ¬ a.data <:+ b.data) :
    (x ++ a = b) = False := ends_eq_false x a b h

theorem ends_eq_ends1_false (x a b c : String) (h1 : ¬ a.data <:+ c.data)
    (h2 : ¬ c.data <:+ a.data) : (x ++ a = b ++ c) = False := by
  apply ends_eq_false
  simpa using not_suffix_of_ends b.data h1 h2

theorem ends_eq_ends2_false (x a b1 b2 c : String) (h1 : ¬ a.data <:+ c.data)
    (h2 : ¬ c.data <:+ a.data) : (x ++ a = b1 ++ (b2 ++ c)) = False := by
  rw [← String.append_assoc]; exact ends_eq_ends1_false x a _ c h1 h2

theorem ends_eq_ends3_false (x a b1 b2 b3 c : String) (h1 : ¬ a.data <:+ c.data)
    (h2 : ¬ c.data <:+ a.data) : (x ++ a = b1 ++ (b2 ++ (b3 ++ c))) = False := by
  rw [← String.append_assoc]; exact ends_eq_ends2_false x a _ b3 c h1 h2

theorem ends_eq_ends4_false (x a b1 b2 b3 b4 c : String) (h1 : ¬ a.data <:+ c.data)
    (h2 : ¬ c.data <:+ a.data) : (x ++ a = b1 ++ (b2 ++ (b3 ++ (b4 ++ c)))) = False := by
  rw [← String.append_assoc]; exact ends_eq_ends3_false x a _ b3 b4 c h1 h2

theorem ends_eq_ends5_false (x a b1 b2 b3 b4 b5 c : String) (h1 : ¬ a.data <:+ c.data)
    (h2 : ¬ c.data <:+ a.data) :
    (x ++ a = b1 ++ (b2 ++ (b3 ++ (b4 ++ (b5 ++ c))))) = False := by
  rw [← String.append_assoc]; exact ends_eq_ends4_false x a _ b3 b4 b5 c h1 h2

theorem ends_eq_ends6_false (x a b1 b2 b3 b4 b5 b6 c : String) (h1 : ¬ a.data <:+ c.data)
    (h2 : ¬ c.data <:+ a.data) :
    (x ++ a = b1 ++ (b2 ++ (b3 ++ (b4 ++ (b5 ++ (b6 ++ c)))))) = False := by
  rw [← String.append_assoc]; exact ends_eq_ends5_false x a _ b3 b4 b5 b6 c h1 h2

theorem eq_comm_false {a b : String} (h : (a = b) = False) : (b = a) = False := by
  simp only [eq_iff_iff, iff_false] at h ⊢
  exact fun e => h e.symm

theorem blockAfter_cons (o c l : String) (r : List String) :
    blockAfter o c (l :: r)
      = if l = o then r.takeWhile (fun x => x != c) else blockAfter o c r := rfl

theorem takeWhile_bne_cons (c a : String) (l : List String) :
    (a :: l).takeWhile (fun x => x != c)
      = if a = c then [] else a :: l.takeWhile (fun x => x != c) := by
  by_cases e : a = c <;> simp [List.takeWhile_cons, e]

theorem count_cons_string (a b : String) (l : List String) :
    (b :: l).count a = l.count a + if b = a then 1 else 0 := by
  simp [List.count_cons]

theorem ends2_eq_ends_false (x a b1 b2 c : String) (h1 : ¬ a.data <:+ c.data)
    (h2 : ¬ c.data <:+ a.data) : (b1 ++ (b2 ++ c) = x ++ a) = False :=
  eq_comm_false (ends_eq_ends2_false x a b1 b2 c h1 h2)

theorem blockAfter_nil (o c : String) : blockAfter o c [] = [] := rfl

/-! ## Stream interfaces -/

/-- C4: for a streaming method the body of the emitted interface `<Service>_<Method>Client`
is the member set of the specification: `Send` iff client-streaming, `Recv` iff
server-streaming, `CloseAndRecv` iff not server-streaming, the embedded client stream, and
nothing else; for a unary method the interface is not emitted. -/
theorem generateClientMethod_streamInterface (h : Host) (servName full sdv d : String)
    (m : MethodDescriptorProto) (k : State) (hs : servName ≠ "") :
    (generateClientMethod h servName full sdv m d k).1 = some ()
    ∧ (isUnary m = false →
        blockAfter ("type " ++ servName ++ "_" ++ h.CamelCase m.Name ++ "Client interface \x7b")
            "\x7d" (emitted (generateClientMethod h servName full sdv m d) k)
          = clientStreamMembers h k.kitePkg m)
    ∧ (isUnary m = true →
        ("type " ++ servName ++ "_" ++ h.CamelCase m.Name ++ "Client interface \x7b")
          ∉ emitted (generateClientMethod h servName full sdv m d) k)
    ∧ ("Send(*" ++ h.TypeName m.InputType ++ ") error" ∈ clientStreamMembers h k.kitePkg m
        ↔ m.ClientStreaming = true)
    ∧ ("Recv() (*" ++ h.TypeName m.OutputType ++ ", error)" ∈ clientStreamMembers h k.kitePkg m
        ↔ m.ServerStreaming = true)
    ∧ ("CloseAndRecv() (*" ++ h.TypeName m.OutputType ++ ", error)"
          ∈ clientStreamMembers h k.kitePkg m ↔ m.ServerStreaming = false)
    ∧ k.kitePkg ++ ".ClientStream" ∈ clientStreamMembers h k.kitePkg m
    ∧ ∀ l ∈ clientStreamMembers h k.kitePkg m,
        l = "Send(*" ++ h.TypeName m.InputType ++ ") error"
        ∨ l = "Recv() (*" ++ h.TypeName m.OutputType ++ ", error)"
        ∨ l = "CloseAndRecv() (*" ++ h.TypeName m.OutputType ++ ", error)"
        ∨ l = k.kitePkg ++ ".ClientStream" := by
  obtain ⟨u, hu⟩ := unexport_of_ne hs
  obtain ⟨name, inT, outT, cs, ss, dep⟩ := m
  cases cs <;> cases ss <;> cases dep <;>
    simp [generateClientMethod, generateClientSignature, reservedClientName, hu, emitted,
      isUnary, deprecationComment, String.append_assoc, clientStreamMembers] <;>
    simp (disch := decide) only [blockAfter_cons, blockAfter_nil, takeWhile_bne_cons,
      List.takeWhile_nil, append_eq_append_false, eq_append_false, append_eq_false,
      lit_eq_false, append_left_cancel_eq, ends_eq_lit_false, ends2_eq_ends_false,
      ↓reduceIte, not_false_eq_true, and_self, or_self]

theorem generateClientMethod_streamInterface_witness :
    "Chat" ≠ ""
    ∧ (generateClientMethod plainHost "Chat" "Chat" "_Chat_serviceDesc" chatMethod
        "&_Chat_serviceDesc.Streams[0]" State.empty).1 = some ()
    ∧ blockAfter ("type " ++ "Chat" ++ "_" ++ plainHost.CamelCase chatMethod.Name
          ++ "Client interface \x7b") "\x7d"
        (emitted (generateClientMethod plainHost "Chat" "Chat" "_Chat_serviceDesc" chatMethod
          "&_Chat_serviceDesc.Streams[0]") State.empty)
        = clientStreamMembers plainHost State.empty.kitePkg chatMethod :=
  have w := generateClientMethod_streamInterface plainHost "Chat" "Chat" "_Chat_serviceDesc"
    "&_Chat_serviceDesc.Streams[0]" chatMethod State.empty (by decide)
  ⟨by decide, w.1, w.2.1 rfl⟩

/-- C5: for a streaming method the body of the emitted interface `<Service>_<Method>Server`
is the member set of the specification: `Send` iff server-streaming, `SendAndClose` iff not
server-streaming, `Recv` iff client-streaming, the embedded server stream, and nothing else;
and each member has exactly one method on the stream wrapper struct when it is in the
interface, none when it is not. -/
theorem generateServerMethod_streamInterface (h : Host) (servName full u : String)
    (m : MethodDescriptorProto) (k : State) (hu : unexport servName = some u)
    (hm : isUnary m = false) :
    (generateServerMethod h servName full m k).1
      = some ("_" ++ servName ++ "_" ++ h.CamelCase m.Name ++ "_Handler")
    ∧ blockAfter ("type " ++ servName ++ "_" ++ h.CamelCase m.Name ++ "Server interface \x7b")
          "\x7d" (emitted (generateServerMethod h servName full m) k)
        = serverStreamMembers h k.kitePkg m
    ∧ ("Send(*" ++ h.TypeName m.OutputType ++ ") error" ∈ serverStreamMembers h k.kitePkg m
        ↔ m.ServerStreaming = true)
    ∧ ("SendAndClose(*" ++ h.TypeName m.OutputType ++ ") error"
          ∈ serverStreamMembers h k.kitePkg m ↔ m.ServerStreaming = false)
    ∧ ("Recv() (*" ++ h.TypeName m.InputType ++ ", error)" ∈ serverStreamMembers h k.kitePkg m
        ↔ m.ClientStreaming = true)
    ∧ k.kitePkg ++ ".ServerStream" ∈ serverStreamMembers h k.kitePkg m
    ∧ (∀ l ∈ serverStreamMembers h k.kitePkg m,
        l = "Send(*" ++ h.TypeName m.OutputType ++ ") error"
        ∨ l = "SendAndClose(*" ++ h.TypeName m.OutputType ++ ") error"
        ∨ l = "Recv() (*" ++ h.TypeName m.InputType ++ ", error)"
        ∨ l = k.kitePkg ++ ".ServerStream")
    ∧ (emitted (generateServerMethod h servName full m) k).count
          ("func (x *" ++ (u ++ h.CamelCase m.Name ++ "Server") ++ ") Send(m *"
            ++ h.TypeName m.OutputType ++ ") error \x7b")
        = (if m.ServerStreaming then 1 else 0)
    ∧ (emitted (generateServerMethod h servName full m) k).count
          ("func (x *" ++ (u ++ h.CamelCase m.Name ++ "Server") ++ ") SendAndClose(m *"
            ++ h.TypeName m.OutputType ++ ") error \x7b")
        = (if m.ServerStreaming then 0 else 1)
    ∧ (emitted (generateServerMethod h servName full m) k).count
          ("func (x *" ++ (u ++ h.CamelCase m.Name ++ "Server") ++ ") Recv() (*"
            ++ h.TypeName m.InputType ++ ", error) \x7b")
        = (if m.ClientStreaming then 1 else 0) := by
  obtain ⟨name, inT, outT, cs, ss, dep⟩ := m
  cases cs <;> cases ss <;> simp [isUnary] at hm <;>
    simp [generateServerMethod, hu, emitted, String.append_assoc, serverStreamMembers] <;>
    simp (disch := decide) only [blockAfter_cons, blockAfter_nil, takeWhile_bne_cons,
      List.takeWhile_nil, count_cons_string, List.count_nil, append_eq_append_false,
      eq_append_false, append_eq_false, lit_eq_false, append_left_cancel_eq,
      ends_eq_lit_false, ends2_eq_ends_false, ends_eq_ends5_false, ends_eq_ends6_false,
      ↓reduceIte, not_false_eq_true, and_self, or_self, Nat.zero_add, Nat.add_zero] <;>
    simp [String.ext_iff]

theorem generateServerMethod_streamInterface_witness :
    unexport "Chat" = some "chat" ∧ isUnary chatMethod = false
    ∧ (generateServerMethod plainHost "Chat" "Chat" chatMethod State.empty).1
        = some ("_" ++ "Chat" ++ "_" ++ plainHost.CamelCase chatMethod.Name ++ "_Handler")
    ∧ blockAfter ("type " ++ "Chat" ++ "_" ++ plainHost.CamelCase chatMethod.Name
          ++ "Server interface \x7b") "\x7d"
          (emitted (generateServerMethod plainHost "Chat" "Chat" chatMethod) State.empty)
        = serverStreamMembers plainHost State.empty.kitePkg chatMethod :=
  have w := generateServerMethod_streamInterface plainHost "Chat" "Chat" "chat" chatMethod
    State.empty (by decide) (by decide)
  ⟨by decide, by decide, w.1, w.2.1⟩


/-! ## Frame: the sink only grows -/

theorem State.Extends.refl (k : State) : k.Extends k := ⟨rfl, rfl, List.prefix_refl _⟩

theorem State.Extends.trans {a b c : State} (h1 : a.Extends b) (h2 : b.Extends c) :
    a.Extends c :=
  ⟨h2.1.trans h1.1, h2.2.1.trans h1.2.1, h1.2.2.trans h2.2.2⟩

theorem Gen.frame_pure {α : Type} (a : α) : Gen.Frame (Pure.pure a : Gen α) :=
  fun k => State.Extends.refl k

theorem Gen.frame_bind {α β : Type} {x : Gen α} {f : α → Gen β} (hx : Gen.Frame x)
    (hf : ∀ a, Gen.Frame (f a)) : Gen.Frame (x >>= f) := by
  intro k
  rw [Gen.bind_run]
  have hk := hx k
  cases hxk : x k with
  | mk r k1 =>
    rw [hxk] at hk
    cases r with
    | none => exact hk
    | some a => exact hk.trans (hf a k1)

theorem Gen.frame_ite {α : Type} (c : Prop) [Decidable c] {x y : Gen α} (hx : Gen.Frame x)
    (hy : Gen.Frame y) : Gen.Frame (if c then x else y) := by
  split
  · exact hx
  · exact hy

theorem Gen.frame_P (args : List String) : Gen.Frame (Kite.P args) :=
  fun _ => ⟨rfl, rfl, List.prefix_append _ _⟩

theorem Gen.frame_PrintComments (h : Host) (s : String) :
    Gen.Frame (Kite.PrintComments h s) := by
  intro k
  unfold Kite.PrintComments
  cases h.Comments s with
  | none => exact State.Extends.refl k
  | some c => exact ⟨rfl, rfl, List.prefix_append _ _⟩

theorem generateClientSignature_frame (h : Host) (servName : String)
    (m : MethodDescriptorProto) : Gen.Frame (generateClientSignature h servName m) := by
  intro k
  obtain ⟨name, inT, outT, cs, ss, dep⟩ := m
  cases cs <;> cases ss <;>
    simp [generateClientSignature, reservedClientName, State.Extends]

theorem generateServerSignature_frame (h : Host) (servName : String)
    (m : MethodDescriptorProto) : Gen.Frame (generateServerSignature h servName m) := by
  intro k
  obtain ⟨name, inT, outT, cs, ss, dep⟩ := m
  cases cs <;> cases ss <;>
    simp [generateServerSignature, reservedClientName, State.Extends]

theorem generateClientMethod_frame (h : Host) (servName full sdv : String)
    (m : MethodDescriptorProto) (d : String) :
    Gen.Frame (generateClientMethod h servName full sdv m d) := by
  intro k
  obtain ⟨name, inT, outT, cs, ss, dep⟩ := m
  cases hu : unexport servName <;> cases cs <;> cases ss <;> cases dep <;>
    simp [generateClientMethod, generateClientSignature, reservedClientName, hu, State.Extends]

theorem generateServerMethod_frame (h : Host) (servName full : String)
    (m : MethodDescriptorProto) : Gen.Frame (generateServerMethod h servName full m) := by
  intro k
  obtain ⟨name, inT, outT, cs, ss, dep⟩ := m
  cases hu : unexport servName <;> cases cs <;> cases ss <;>
    simp [generateServerMethod, hu, State.Extends]

theorem generateServerMethodConcrete_frame (h : Host) (servName : String)
    (m : MethodDescriptorProto) : Gen.Frame (generateServerMethodConcrete h servName m) := by
  intro k
  obtain ⟨name, inT, outT, cs, ss, dep⟩ := m
  cases cs <;> cases ss <;>
    simp [generateServerMethodConcrete, generateServerSignatureWithParamNames,
      reservedClientName, AddImport, State.Extends]

theorem generateService_clientInterface_frame (h : Host) (path servName : String)
    (ms : List MethodDescriptorProto) (i : Nat) :
    Gen.Frame (generateService.clientInterface h path servName ms i) := by
  induction ms generalizing i with
  | nil => exact Gen.frame_pure _
  | cons m rest ih =>
    unfold generateService.clientInterface
    repeat' first
      | exact Gen.frame_P _
      | exact Gen.frame_pure _
      | exact Gen.frame_PrintComments _ _
      | exact generateClientSignature_frame _ _ _
      | exact ih _
      | apply Gen.frame_bind
      | apply Gen.frame_ite
      | intro _

theorem generateService_serverInterface_frame (h : Host) (path servName : String)
    (ms : List MethodDescriptorProto) (i : Nat) :
    Gen.Frame (generateService.serverInterface h path servName ms i) := by
  induction ms generalizing i with
  | nil => exact Gen.frame_pure _
  | cons m rest ih =>
    unfold generateService.serverInterface
    repeat' first
      | exact Gen.frame_P _
      | exact Gen.frame_pure _
      | exact Gen.frame_PrintComments _ _
      | exact generateServerSignature_frame _ _ _
      | exact ih _
      | apply Gen.frame_bind
      | apply Gen.frame_ite
      | intro _

theorem generateService_clientMethods_frame (h : Host) (servName full sdv : String)
    (ms : List MethodDescriptorProto) (mi si : Nat) :
    Gen.Frame (generateService.clientMethods h servName full sdv ms mi si) := by
  induction ms generalizing mi si with
  | nil => exact Gen.frame_pure _
  | cons m rest ih =>
    unfold generateService.clientMethods
    repeat' first
      | exact Gen.frame_pure _
      | exact generateClientMethod_frame _ _ _ _ _ _
      | exact ih _ _
      | apply Gen.frame_bind
      | apply Gen.frame_ite
      | intro _

theorem generateService_serverMethods_frame (h : Host) (servName full : String)
    (ms : List MethodDescriptorProto) (acc : List String) :
    Gen.Frame (generateService.serverMethods h servName full ms acc) := by
  induction ms generalizing acc with
  | nil => exact Gen.frame_pure _
  | cons m rest ih =>
    unfold generateService.serverMethods
    repeat' first
      | exact Gen.frame_pure _
      | exact generateServerMethod_frame _ _ _ _
      | exact ih _
      | apply Gen.frame_bind
      | intro _

theorem generateUnimplementedServer_methods_frame (h : Host) (servName : String)
    (ms : List MethodDescriptorProto) :
    Gen.Frame (generateUnimplementedServer.methods h servName ms) := by
  induction ms with
  | nil => exact Gen.frame_pure _
  | cons m rest ih =>
    unfold generateUnimplementedServer.methods
    repeat' first
      | exact Gen.frame_pure _
      | exact generateServerMethodConcrete_frame _ _ _
      | exact ih
      | apply Gen.frame_bind
      | intro _

theorem generateUnimplementedServer_frame (h : Host) (servName : String)
    (service : ServiceDescriptorProto) :
    Gen.Frame (generateUnimplementedServer h servName service) := by
  unfold generateUnimplementedServer
  repeat' first
    | exact Gen.frame_P _
    | exact Gen.frame_pure _
    | exact generateUnimplementedServer_methods_frame _ _ _
    | apply Gen.frame_bind
    | intro _

/-! ## Completion -/

theorem Gen.ok_pure {α : Type} (a : α) : Gen.Ok (Pure.pure a : Gen α) :=
  fun _ => ⟨a, rfl⟩

theorem Gen.ok_bind {α β : Type} {x : Gen α} {f : α → Gen β} (hx : Gen.Ok x)
    (hf : ∀ a, Gen.Ok (f a)) : Gen.Ok (x >>= f) := by
  intro k
  obtain ⟨a, ha⟩ := hx k
  rw [Gen.bind_run]
  cases hxk : x k with
  | mk r k1 =>
    rw [hxk] at ha
    cases r with
    | none => exact absurd ha (by simp)
    | some b => exact hf b k1

theorem Gen.ok_ite {α : Type} (c : Prop) [Decidable c] {x y : Gen α} (hx : Gen.Ok x)
    (hy : Gen.Ok y) : Gen.Ok (if c then x else y) := by
  split
  · exact hx
  · exact hy

theorem Gen.ok_P (args : List String) : Gen.Ok (Kite.P args) :=
  fun _ => ⟨(), rfl⟩

theorem Gen.ok_PrintComments (h : Host) (s : String) : Gen.Ok (Kite.PrintComments h s) := by
  intro k
  unfold Kite.PrintComments
  cases h.Comments s with
  | none => exact ⟨_, rfl⟩
  | some c => exact ⟨_, rfl⟩

theorem Gen.ok_run_unit {x : Gen Unit} (hx : Gen.Ok x) (k : State) :
    x k = (some (), Gen.exec x k) := by
  obtain ⟨a, ha⟩ := hx k
  exact Prod.ext ha rfl

theorem Gen.frame_exec_kitePkg {α : Type} {x : Gen α} (hx : Gen.Frame x) (k : State) :
    (Gen.exec x k).kitePkg = k.kitePkg := (hx k).2.1

theorem Gen.frame_exec_contextPkg {α : Type} {x : Gen α} (hx : Gen.Frame x) (k : State) :
    (Gen.exec x k).contextPkg = k.contextPkg := (hx k).1

theorem Gen.frame_exec_out {α : Type} {x : Gen α} (hx : Gen.Frame x) (k : State) :
    (Gen.exec x k).out = k.out ++ emitted x k := by
  obtain ⟨t, ht⟩ := (hx k).2.2
  unfold emitted Gen.exec
  rw [← ht, List.drop_left]

theorem generateClientSignature_ok (h : Host) (servName : String)
    (m : MethodDescriptorProto) : Gen.Ok (generateClientSignature h servName m) := by
  intro k
  obtain ⟨name, inT, outT, cs, ss, dep⟩ := m
  cases cs <;> cases ss <;> simp [generateClientSignature, reservedClientName]

theorem generateServerSignature_ok (h : Host) (servName : String)
    (m : MethodDescriptorProto) : Gen.Ok (generateServerSignature h servName m) := by
  intro k
  obtain ⟨name, inT, outT, cs, ss, dep⟩ := m
  cases cs <;> cases ss <;> simp [generateServerSignature, reservedClientName]

theorem generateClientMethod_ok (h : Host) (servName full sdv u : String)
    (m : MethodDescriptorProto) (d : String) (hu : unexport servName = some u) :
    Gen.Ok (generateClientMethod h servName full sdv m d) := by
  intro k
  obtain ⟨name, inT, outT, cs, ss, dep⟩ := m
  cases cs <;> cases ss <;> cases dep <;>
    simp [generateClientMethod, generateClientSignature, reservedClientName, hu]

theorem generateServerMethod_fst (h : Host) (servName full u : String)
    (m : MethodDescriptorProto) (hu : unexport servName = some u) (k : State) :
    (generateServerMethod h servName full m k).1 = some (handlerName h servName m) := by
  obtain ⟨name, inT, outT, cs, ss, dep⟩ := m
  cases cs <;> cases ss <;> simp [generateServerMethod, hu, handlerName]

theorem generateServerMethodConcrete_ok (h : Host) (servName : String)
    (m : MethodDescriptorProto) : Gen.Ok (generateServerMethodConcrete h servName m) := by
  intro k
  obtain ⟨name, inT, outT, cs, ss, dep⟩ := m
  cases cs <;> cases ss <;>
    simp [generateServerMethodConcrete, generateServerSignatureWithParamNames,
      reservedClientName, AddImport]

theorem generateService_clientInterface_ok (h : Host) (path servName : String)
    (ms : List MethodDescriptorProto) (i : Nat) :
    Gen.Ok (generateService.clientInterface h path servName ms i) := by
  induction ms generalizing i with
  | nil => exact Gen.ok_pure _
  | cons m rest ih =>
    unfold generateService.clientInterface
    repeat' first
      | exact Gen.ok_P _
      | exact Gen.ok_pure _
      | exact Gen.ok_PrintComments _ _
      | exact generateClientSignature_ok _ _ _
      | exact ih _
      | apply Gen.ok_bind
      | apply Gen.ok_ite
      | intro _

theorem generateService_serverInterface_ok (h : Host) (path servName : String)
    (ms : List MethodDescriptorProto) (i : Nat) :
    Gen.Ok (generateService.serverInterface h path servName ms i) := by
  induction ms generalizing i with
  | nil => exact Gen.ok_pure _
  | cons m rest ih =>
    unfold generateService.serverInterface
    repeat' first
      | exact Gen.ok_P _
      | exact Gen.ok_pure _
      | exact Gen.ok_PrintComments _ _
      | exact generateServerSignature_ok _ _ _
      | exact ih _
      | apply Gen.ok_bind
      | apply Gen.ok_ite
      | intro _

theorem generateService_clientMethods_ok (h : Host) (servName full sdv u : String)
    (hu : unexport servName = some u) (ms : List MethodDescriptorProto) (mi si : Nat) :
    Gen.Ok (generateService.clientMethods h servName full sdv ms mi si) := by
  induction ms generalizing mi si with
  | nil => exact Gen.ok_pure _
  | cons m rest ih =>
    unfold generateService.clientMethods
    repeat' first
      | exact Gen.ok_pure _
      | exact generateClientMethod_ok _ _ _ _ _ _ _ hu
      | exact ih _ _
      | apply Gen.ok_bind
      | apply Gen.ok_ite
      | intro _

theorem generateUnimplementedServer_ok (h : Host) (servName : String)
    (service : ServiceDescriptorProto) :
    Gen.Ok (generateUnimplementedServer h servName service) := by
  have hm : ∀ ms, Gen.Ok (generateUnimplementedServer.methods h servName ms) := by
    intro ms
    induction ms with
    | nil => exact Gen.ok_pure _
    | cons m rest ih =>
      unfold generateUnimplementedServer.methods
      exact Gen.ok_bind (generateServerMethodConcrete_ok _ _ _) (fun _ => ih)
  unfold generateUnimplementedServer
  repeat' first
    | exact Gen.ok_P _
    | exact Gen.ok_pure _
    | exact hm _
    | apply Gen.ok_bind
    | intro _

theorem generateService_serverMethods_fst (h : Host) (servName full u : String)
    (hu : unexport servName = some u) (ms : List MethodDescriptorProto) (acc : List String)
    (k : State) :
    (generateService.serverMethods h servName full ms acc k).1
      = some (acc ++ ms.map (handlerName h servName)) := by
  induction ms generalizing acc k with
  | nil => simp [generateService.serverMethods]
  | cons m rest ih =>
    have e : generateServerMethod h servName full m k
        = (some (handlerName h servName m),
            Gen.exec (generateServerMethod h servName full m) k) :=
      Prod.ext (generateServerMethod_fst h servName full u m hu k) rfl
    simp [generateService.serverMethods, e, ih]

/-! ## The descriptor table -/

theorem getElem?_append_cons_length {α : Type} (pre : List α) (a : α) (rest : List α) :
    (pre ++ a :: rest)[pre.length]? = some a := by
  rw [List.getElem?_append_right (le_refl _)]
  simp

theorem generateService_methodDescs_run (h : Host) (f : MethodDescriptorProto → String)
    (ms : List MethodDescriptorProto) (pre : List String) (k : State) :
    generateService.methodDescs h (pre ++ ms.map f) ms pre.length k
      = (some (), { k with out := k.out
          ++ ((unaryMethods ms).map (fun m => methodRecord h (f m) m)).flatten }) := by
  induction ms generalizing pre k with
  | nil => simp [generateService.methodDescs, unaryMethods]
  | cons m rest ih =>
    have hidx := getElem?_append_cons_length pre (f m) (rest.map f)
    have ih1 := ih (pre ++ [f m])
    simp only [List.append_assoc, List.singleton_append, List.length_append,
      List.length_singleton] at ih1
    obtain ⟨name, inT, outT, cs, ss, dep⟩ := m
    cases cs <;> cases ss <;>
      simp [generateService.methodDescs, unaryMethods, isUnary, methodRecord, hidx, ih1,
        String.append_assoc]

theorem generateService_streamDescs_run (h : Host) (f : MethodDescriptorProto → String)
    (ms : List MethodDescriptorProto) (pre : List String) (k : State) :
    generateService.streamDescs h (pre ++ ms.map f) ms pre.length k
      = (some (), { k with out := k.out
          ++ ((streamMethods ms).map (fun m => streamRecord h (f m) m)).flatten }) := by
  induction ms generalizing pre k with
  | nil => simp [generateService.streamDescs, streamMethods]
  | cons m rest ih =>
    have hidx := getElem?_append_cons_length pre (f m) (rest.map f)
    have ih1 := ih (pre ++ [f m])
    simp only [List.append_assoc, List.singleton_append, List.length_append,
      List.length_singleton] at ih1
    obtain ⟨name, inT, outT, cs, ss, dep⟩ := m
    cases cs <;> cases ss <;>
      simp [generateService.streamDescs, streamMethods, isUnary, streamRecord, hidx, ih1,
        String.append_assoc]

theorem generateService_serviceDesc_run (h : Host) (file : FileDescriptor)
    (service : ServiceDescriptorProto) (k : State) :
    generateService.serviceDesc h file service (fullServiceName file service)
        (h.CamelCase service.Name ++ "Server") ("_" ++ h.CamelCase service.Name ++ "_serviceDesc")
        (service.Method.map (handlerName h (h.CamelCase service.Name))) k
      = (some (), { k with out := k.out ++ descriptorTable h k.kitePkg file service }) := by
  have e1 := generateService_methodDescs_run h (handlerName h (h.CamelCase service.Name))
    service.Method []
  have e2 := generateService_streamDescs_run h (handlerName h (h.CamelCase service.Name))
    service.Method []
  simp only [List.nil_append, List.length_nil] at e1 e2
  simp [generateService.serviceDesc, e1, e2, descriptorTable, String.append_assoc]
  simp [String.ext_iff]

theorem generateService_serverMethods_run (h : Host) (servName full u : String)
    (hu : unexport servName = some u) (ms : List MethodDescriptorProto) (k : State) :
    generateService.serverMethods h servName full ms [] k
      = (some (ms.map (handlerName h servName)),
          Gen.exec (generateService.serverMethods h servName full ms []) k) :=
  Prod.ext (by simpa using generateService_serverMethods_fst h servName full u hu ms [] k) rfl

theorem suffix_of_append_right {α : Type} {t l : List α} (p : List α) (hs : t <:+ l) :
    t <:+ p ++ l := hs.trans (List.suffix_append p l)

theorem suffix_of_cons_right {α : Type} {t l : List α} (a : α) (hs : t <:+ l) :
    t <:+ a :: l := hs.trans (List.suffix_cons a l)

theorem generateService_ends_with_table (h : Host) (file : FileDescriptor)
    (service : ServiceDescriptorProto) (index : Nat) (u : String)
    (hu : unexport (h.CamelCase service.Name) = some u) (k : State) :
    (generateService h file service index k).1 = some ()
    ∧ (generateService h file service index k).2.kitePkg = k.kitePkg
    ∧ descriptorTable h k.kitePkg file service
        <:+ emitted (generateService h file service index) k := by
  have e := generateService_serviceDesc_run h file service
  obtain ⟨sname, ms, dep⟩ := service
  simp only at hu
  unfold emitted
  by_cases hp : file.Package = "" <;> cases dep <;>
    simp [fullServiceName, hp] at e <;>
    simp [generateService, hu, hp, e,
      Gen.ok_run_unit (generateService_clientInterface_ok _ _ _ _ _),
      Gen.ok_run_unit (generateService_serverInterface_ok _ _ _ _ _),
      Gen.ok_run_unit (generateService_clientMethods_ok _ _ _ _ u hu _ _ _),
      Gen.ok_run_unit (generateUnimplementedServer_ok _ _ _),
      generateService_serverMethods_run _ _ _ u hu,
      Gen.frame_exec_kitePkg (generateService_clientInterface_frame _ _ _ _ _),
      Gen.frame_exec_kitePkg (generateService_serverInterface_frame _ _ _ _ _),
      Gen.frame_exec_kitePkg (generateService_clientMethods_frame _ _ _ _ _ _ _),
      Gen.frame_exec_kitePkg (generateUnimplementedServer_frame _ _ _),
      Gen.frame_exec_kitePkg (generateService_serverMethods_frame _ _ _ _ _),
      Gen.frame_exec_out (generateService_clientInterface_frame _ _ _ _ _),
      Gen.frame_exec_out (generateService_serverInterface_frame _ _ _ _ _),
      Gen.frame_exec_out (generateService_clientMethods_frame _ _ _ _ _ _ _),
      Gen.frame_exec_out (generateUnimplementedServer_frame _ _ _),
      Gen.frame_exec_out (generateService_serverMethods_frame _ _ _ _ _)]
  all_goals
    repeat first
      | exact List.suffix_refl _
      | apply suffix_of_cons_right
      | apply suffix_of_append_right

theorem generateService_frame (h : Host) (file : FileDescriptor)
    (service : ServiceDescriptorProto) (index : Nat) :
    Gen.Frame (generateService h file service index) := by
  intro k
  have e := generateService_serviceDesc_run h file service
  obtain ⟨sname, ms, dep⟩ := service
  cases hu : unexport (h.CamelCase sname) with
  | none =>
    by_cases hp : file.Package = "" <;> cases dep <;>
      simp [generateService, hu, hp, State.Extends,
        Gen.ok_run_unit (generateService_clientInterface_ok _ _ _ _ _),
        Gen.frame_exec_kitePkg (generateService_clientInterface_frame _ _ _ _ _),
        Gen.frame_exec_contextPkg (generateService_clientInterface_frame _ _ _ _ _),
        Gen.frame_exec_out (generateService_clientInterface_frame _ _ _ _ _)]
  | some u =>
    by_cases hp : file.Package = "" <;> cases dep <;>
      simp [fullServiceName, hp] at e <;>
      simp [generateService, hu, hp, e, State.Extends,
        Gen.ok_run_unit (generateService_clientInterface_ok _ _ _ _ _),
        Gen.ok_run_unit (generateService_serverInterface_ok _ _ _ _ _),
        Gen.ok_run_unit (generateService_clientMethods_ok _ _ _ _ u hu _ _ _),
        Gen.ok_run_unit (generateUnimplementedServer_ok _ _ _),
        generateService_serverMethods_run _ _ _ u hu,
        Gen.frame_exec_kitePkg (generateService_clientInterface_frame _ _ _ _ _),
        Gen.frame_exec_kitePkg (generateService_serverInterface_frame _ _ _ _ _),
        Gen.frame_exec_kitePkg (generateService_clientMethods_frame _ _ _ _ _ _ _),
        Gen.frame_exec_kitePkg (generateUnimplementedServer_frame _ _ _),
        Gen.frame_exec_kitePkg (generateService_serverMethods_frame _ _ _ _ _),
        Gen.frame_exec_contextPkg (generateService_clientInterface_frame _ _ _ _ _),
        Gen.frame_exec_contextPkg (generateService_serverInterface_frame _ _ _ _ _),
        Gen.frame_exec_contextPkg (generateService_clientMethods_frame _ _ _ _ _ _ _),
        Gen.frame_exec_contextPkg (generateUnimplementedServer_frame _ _ _),
        Gen.frame_exec_contextPkg (generateService_serverMethods_frame _ _ _ _ _),
        Gen.frame_exec_out (generateService_clientInterface_frame _ _ _ _ _),
        Gen.frame_exec_out (generateService_serverInterface_frame _ _ _ _ _),
        Gen.frame_exec_out (generateService_clientMethods_frame _ _ _ _ _ _ _),
        Gen.frame_exec_out (generateUnimplementedServer_frame _ _ _),
        Gen.frame_exec_out (generateService_serverMethods_frame _ _ _ _ _)]

theorem Generate_services_frame (h : Host) (file : FileDescriptor)
    (ss : List ServiceDescriptorProto) (i : Nat) :
    Gen.Frame (Generate.services h file ss i) := by
  induction ss generalizing i with
  | nil => exact Gen.frame_pure _
  | cons s rest ih =>
    unfold Generate.services
    exact Gen.frame_bind (generateService_frame _ _ _ _) (fun _ => ih _)

/-! ## The file -/

theorem sinkAfter_true (buf printed : List String) :
    sinkAfter true buf printed = buf ++ printed := by
  induction printed generalizing buf with
  | nil => simp [sinkAfter]
  | cons l rest ih =>
    have e := ih (buf ++ [l])
    simp only [sinkAfter, List.foldl_cons] at e ⊢
    simpa [hostP] using e

theorem sinkAfter_false (buf printed : List String) : sinkAfter false buf printed = buf := by
  induction printed generalizing buf with
  | nil => simp [sinkAfter]
  | cons l rest ih =>
    have e := ih buf
    simp only [sinkAfter, List.foldl_cons] at e ⊢
    simpa [hostP] using e

theorem Generate_hands_line (h : Host) (file : FileDescriptor) (k : State)
    (hne : file.Service ≠ []) :
    k.out <+: (Generate h file k).2.out ∧ 0 < (emitted (Generate h file) k).length := by
  have hlen : k.out <+: (Generate h file k).2.out
      ∧ k.out.length < (Generate h file k).2.out.length := by
    obtain ⟨name, pkg, ss⟩ := file
    cases ss with
    | nil => exact absurd rfl hne
    | cons s rest =>
      have hf := Generate_services_frame h ⟨name, pkg, s :: rest⟩ (s :: rest) 0
      have e : ∀ k1, (Generate.services h ⟨name, pkg, s :: rest⟩ (s :: rest) 0 k1).2.out
          = k1.out ++ emitted (Generate.services h ⟨name, pkg, s :: rest⟩ (s :: rest) 0) k1 :=
        fun k1 => Gen.frame_exec_out hf k1
      simp [Generate, AddImport, setContextPkg, setKitePkg, e]
  refine ⟨hlen.1, ?_⟩
  simp only [emitted, List.length_drop]
  omega

/-- C9, on the file `ping.proto` with the service `Ping`, read by the host as a dependency
only: `Generate` hands its lines to `P`, and the sink, empty before, is empty after. -/
theorem Generate_dependency_silent :
    pingFile.Service ≠ []
    ∧ 0 < (emitted (Generate plainHost pingFile) State.empty).length
    ∧ sinkAfter false [] (emitted (Generate plainHost pingFile) State.empty) = []
    ∧ ¬ (0 < (sinkAfter false [] (emitted (Generate plainHost pingFile) State.empty)).length)
    :=
  ⟨by decide, (Generate_hands_line plainHost pingFile State.empty (by decide)).2,
    sinkAfter_false _ _, by simp [sinkAfter_false]⟩

/-- C9, amended: on a file without services `Generate` returns at once: it hands no line to
`P`, so the sink stays as it was, and it leaves the registry of imports and every other part
of the state as they were.  On a file with at least one service it hands at least one line
to `P`; the sink of the host grows by at least one line when the host generates the file,
and stays as it was when the file is only a dependency. -/
theorem Generate_sink (h : Host) (file : FileDescriptor) (k : State) :
    (file.Service = [] →
        Generate h file k = (some (), k)
        ∧ emitted (Generate h file) k = []
        ∧ ∀ writeOutput buf, sinkAfter writeOutput buf (emitted (Generate h file) k) = buf)
    ∧ (file.Service ≠ [] →
        k.out <+: (Generate h file k).2.out
        ∧ 0 < (emitted (Generate h file) k).length
        ∧ (∀ buf, buf <+: sinkAfter true buf (emitted (Generate h file) k)
            ∧ buf.length < (sinkAfter true buf (emitted (Generate h file) k)).length)
        ∧ ∀ buf, sinkAfter false buf (emitted (Generate h file) k) = buf) := by
  constructor
  · intro he
    have e : Generate h file k = (some (), k) := by simp [Generate, he]
    refine ⟨e, by simp [emitted, e], fun w buf => ?_⟩
    simp [emitted, e, sinkAfter]
  · intro hne
    have hl := Generate_hands_line h file k hne
    refine ⟨hl.1, hl.2, fun buf => ?_, fun buf => sinkAfter_false _ _⟩
    rw [sinkAfter_true]
    exact ⟨List.prefix_append _ _, by simp only [List.length_append]; omega⟩

theorem Generate_sink_witness :
    (emptyFile.Service = [] ∧ Generate plainHost emptyFile State.empty = (some (), State.empty))
    ∧ (pingFile.Service ≠ []
        ∧ 0 < (emitted (Generate plainHost pingFile) State.empty).length) :=
  ⟨⟨rfl, ((Generate_sink plainHost emptyFile State.empty).1 rfl).1⟩,
    ⟨by decide, ((Generate_sink plainHost pingFile State.empty).2 (by decide)).2.1⟩⟩

/-- C3: the handler loop returns `_<Service>_<Method>_Handler` for each method, and the text
emitted for the service ends with the descriptor table whose `Methods` list holds one record
per unary method and whose `Streams` list holds one record per streaming method, each list
in declaration order, each record with the name and the handler of its own method. -/
theorem generateService_descriptor_records (h : Host) (file : FileDescriptor)
    (service : ServiceDescriptorProto) (index : Nat) (u : String) (k : State)
    (hu : unexport (h.CamelCase service.Name) = some u) :
    (∀ m k1, (generateServerMethod h (h.CamelCase service.Name)
        (fullServiceName file service) m k1).1
          = some ("_" ++ h.CamelCase service.Name ++ "_" ++ h.CamelCase m.Name ++ "_Handler"))
    ∧ (generateService h file service index k).1 = some ()
    ∧ descriptorTable h k.kitePkg file service
        <:+ emitted (generateService h file service index) k
    ∧ (∀ m hname, methodRecord h hname m
        = ["\x7b", "MethodName: " ++ h.Quote m.Name ++ ",", "Handler: " ++ hname ++ ",",
            "\x7d,"])
    ∧ (∀ m hname, (streamRecord h hname m).take 3
        = ["\x7b", "StreamName: " ++ h.Quote m.Name ++ ",", "Handler: " ++ hname ++ ","])
    ∧ (unaryMethods service.Method).Sublist service.Method
    ∧ (streamMethods service.Method).Sublist service.Method
    ∧ (∀ m, m ∈ unaryMethods service.Method ↔ m ∈ service.Method ∧ isUnary m = true)
    ∧ (∀ m, m ∈ streamMethods service.Method ↔ m ∈ service.Method ∧ isUnary m = false) := by
  have e := generateService_ends_with_table h file service index u hu k
  refine ⟨fun m k1 => ?_, e.1, e.2.2, fun _ _ => rfl, fun _ _ => rfl,
    List.filter_sublist _, List.filter_sublist _, fun m => ?_, fun m => ?_⟩
  · exact generateServerMethod_fst h _ _ u m hu k1
  · simp [unaryMethods]
  · simp [streamMethods]

theorem generateService_descriptor_records_witness :
    unexport (plainHost.CamelCase pingService.Name) = some "ping"
    ∧ (generateService plainHost pingFile pingService 0 State.empty).1 = some ()
    ∧ descriptorTable plainHost State.empty.kitePkg pingFile pingService
        <:+ emitted (generateService plainHost pingFile pingService 0) State.empty :=
  have w := generateService_descriptor_records plainHost pingFile pingService 0 "ping"
    State.empty (by decide)
  ⟨by decide, w.2.1, w.2.2.1⟩

/-- C8: for every service with a non-empty name and every streaming method `m` of it, at
whatever position, the text of `generateService` ends with the descriptor table whose
`Streams` list holds, between the records of the streaming methods before `m` and those of
the streaming methods after it, the record `rec` of `m`: opening brace, `StreamName`,
`Handler`, the line `ServerStreams: true,` iff `m` is server-streaming, the line
`ClientStreams: true,` iff `m` is client-streaming, closing brace; the record of a
bidirectional method holds both lines.  For a service whose only method is bidirectional the
table has an empty `Methods` list and that one record in `Streams`. -/
theorem generateService_stream_flags (h : Host) (file : FileDescriptor)
    (service : ServiceDescriptorProto) (index : Nat) (u : String) (k : State)
    (hu : unexport (h.CamelCase service.Name) = some u) :
    (generateService h file service index k).1 = some ()
    ∧ (∀ pre m post rec, service.Method = pre ++ m :: post → isUnary m = false →
        rec = ["\x7b", "StreamName: " ++ h.Quote m.Name ++ ",",
                "Handler: " ++ handlerName h (h.CamelCase service.Name) m ++ ","]
              ++ (if m.ServerStreaming then ["ServerStreams: true,"] else [])
              ++ (if m.ClientStreaming then ["ClientStreams: true,"] else [])
              ++ ["\x7d,"] →
        (["var " ++ ("_" ++ h.CamelCase service.Name ++ "_serviceDesc") ++ " = " ++ k.kitePkg
              ++ ".ServiceDesc \x7b",
            "ServiceName: " ++ h.Quote (fullServiceName file service) ++ ",",
            "HandlerType: (*" ++ (h.CamelCase service.Name ++ "Server") ++ ")(nil),",
            "Methods: []" ++ k.kitePkg ++ ".MethodDesc\x7b"]
            ++ ((unaryMethods service.Method).map
                  (fun x => methodRecord h (handlerName h (h.CamelCase service.Name) x) x)).flatten
            ++ ["\x7d,", "Streams: []" ++ k.kitePkg ++ ".StreamDesc\x7b"]
            ++ ((streamMethods pre).map
                  (fun x => streamRecord h (handlerName h (h.CamelCase service.Name) x) x)).flatten
            ++ rec
            ++ ((streamMethods post).map
                  (fun x => streamRecord h (handlerName h (h.CamelCase service.Name) x) x)).flatten
            ++ ["\x7d,", "Metadata: \"" ++ file.Name ++ "\",", "\x7d", ""]
          <:+ emitted (generateService h file service index) k)
        ∧ ("ServerStreams: true," ∈ rec ↔ m.ServerStreaming = true)
        ∧ ("ClientStreams: true," ∈ rec ↔ m.ClientStreaming = true)
        ∧ (m.ServerStreaming = true → m.ClientStreaming = true →
            rec = ["\x7b", "StreamName: " ++ h.Quote m.Name ++ ",",
              "Handler: " ++ handlerName h (h.CamelCase service.Name) m ++ ",",
              "ServerStreams: true,", "ClientStreams: true,", "\x7d,"]))
    ∧ (∀ ms f k1, emitted (generateService.streamDescs h (ms.map f) ms 0) k1
        = ((streamMethods ms).map (fun x => streamRecord h (f x) x)).flatten)
    ∧ (∀ m, service.Method = [m] → m.ClientStreaming = true → m.ServerStreaming = true →
        ["var " ++ ("_" ++ h.CamelCase service.Name ++ "_serviceDesc") ++ " = " ++ k.kitePkg
              ++ ".ServiceDesc \x7b",
            "ServiceName: " ++ h.Quote (fullServiceName file service) ++ ",",
            "HandlerType: (*" ++ (h.CamelCase service.Name ++ "Server") ++ ")(nil),",
            "Methods: []" ++ k.kitePkg ++ ".MethodDesc\x7b",
            "\x7d,",
            "Streams: []" ++ k.kitePkg ++ ".StreamDesc\x7b",
            "\x7b",
            "StreamName: " ++ h.Quote m.Name ++ ",",
            "Handler: " ++ handlerName h (h.CamelCase service.Name) m ++ ",",
            "ServerStreams: true,",
            "ClientStreams: true,",
            "\x7d,",
            "\x7d,",
            "Metadata: \"" ++ file.Name ++ "\",",
            "\x7d",
            ""] <:+ emitted (generateService h file service index) k) := by
  have e := generateService_ends_with_table h file service index u hu k
  refine ⟨e.1, fun pre m post rec hsplit hm hrec => ⟨?_, ?_, ?_, ?_⟩, fun ms f k1 => ?_,
    fun m hms hc hs => ?_⟩
  · have ht := e.2.2
    have hs : streamMethods service.Method = streamMethods pre ++ m :: streamMethods post := by
      simp [hsplit, streamMethods, List.filter_append, List.filter_cons, hm]
    have hr : streamRecord h (handlerName h (h.CamelCase service.Name) m) m = rec := by
      rw [hrec]; rfl
    simpa [descriptorTable, hs, hr] using ht
  · subst hrec
    obtain ⟨name, inT, outT, cs, ss, dep⟩ := m
    cases cs <;> cases ss <;> simp [String.append_assoc] <;>
      simp (disch := decide) only [eq_append_false, lit_eq_false, not_false_eq_true, and_self]
  · subst hrec
    obtain ⟨name, inT, outT, cs, ss, dep⟩ := m
    cases cs <;> cases ss <;> simp [String.append_assoc] <;>
      simp (disch := decide) only [eq_append_false, lit_eq_false, not_false_eq_true, and_self]
  · intro h1 h2
    simp [hrec, h1, h2]
  · have e2 := generateService_streamDescs_run h f ms [] k1
    simp only [List.nil_append, List.length_nil] at e2
    simp [emitted, e2]
  · have ht : descriptorTable h k.kitePkg file service = _ := rfl
    rw [ht] at e
    simpa [descriptorTable, hms, unaryMethods, streamMethods, isUnary, hc, hs, streamRecord]
      using e.2.2

theorem generateService_stream_flags_witness :
    unexport (plainHost.CamelCase mixedService.Name) = some "mixed"
    ∧ (generateService plainHost pingFile mixedService 0 State.empty).1 = some ()
    ∧ mixedService.Method = [pingMethod] ++ chatMethod :: [uploadMethod, statMethod]
    ∧ isUnary chatMethod = false
    ∧ ("ServerStreams: true,"
        ∈ ["\x7b", "StreamName: " ++ plainHost.Quote chatMethod.Name ++ ",",
              "Handler: " ++ handlerName plainHost (plainHost.CamelCase mixedService.Name)
                chatMethod ++ ","]
            ++ (if chatMethod.ServerStreaming then ["ServerStreams: true,"] else [])
            ++ (if chatMethod.ClientStreaming then ["ClientStreams: true,"] else [])
            ++ ["\x7d,"]
        ↔ chatMethod.ServerStreaming = true)
    ∧ (generateService plainHost pingFile chatService 0 State.empty).1 = some () :=
  have w := generateService_stream_flags plainHost pingFile mixedService 0 "mixed" State.empty
    (by decide)
  have w2 := generateService_stream_flags plainHost pingFile chatService 0 "chat" State.empty
    (by decide)
  ⟨by decide, w.1, rfl, by decide,
    (w.2.1 [pingMethod] chatMethod [uploadMethod, statMethod] _ rfl (by decide) rfl).2.1,
    w2.1⟩

theorem methodsEntry_flatten (h : Host) (servName : String) (ms : List MethodDescriptorProto) :
    ((unaryMethods ms).map (fun m => methodRecord h (handlerName h servName m) m)).flatten
      = (ms.map (methodsEntry h servName)).flatten := by
  induction ms with
  | nil => rfl
  | cons m rest ih =>
    obtain ⟨name, inT, outT, cs, ss, dep⟩ := m
    cases cs <;> cases ss <;>
      simp [unaryMethods, isUnary, methodsEntry] at ih ⊢ <;> exact ih

theorem streamsEntry_flatten (h : Host) (servName : String) (ms : List MethodDescriptorProto) :
    ((streamMethods ms).map (fun m => streamRecord h (handlerName h servName m) m)).flatten
      = (ms.map (streamsEntry h servName)).flatten := by
  induction ms with
  | nil => rfl
  | cons m rest ih =>
    obtain ⟨name, inT, outT, cs, ss, dep⟩ := m
    cases cs <;> cases ss <;>
      simp [streamMethods, isUnary, streamsEntry] at ih ⊢ <;> exact ih

/-- C2: for every service with a non-empty name, `generateService` completes and its text
ends with the descriptor table in which every method of the service, in declaration order,
adds its record to the `Methods` list exactly when client-streaming and server-streaming are
both false, and adds its record to the `Streams` list in the three other cases; the same
holds of the two loops run over the whole method list.  So each method has a record in
exactly one of the two buckets. -/
theorem generateService_bucket (h : Host) (file : FileDescriptor)
    (service : ServiceDescriptorProto) (index : Nat) (u : String) (k : State)
    (hu : unexport (h.CamelCase service.Name) = some u) :
    (generateService h file service index k).1 = some ()
    ∧ ["var " ++ ("_" ++ h.CamelCase service.Name ++ "_serviceDesc") ++ " = " ++ k.kitePkg
          ++ ".ServiceDesc \x7b",
        "ServiceName: " ++ h.Quote (fullServiceName file service) ++ ",",
        "HandlerType: (*" ++ (h.CamelCase service.Name ++ "Server") ++ ")(nil),",
        "Methods: []" ++ k.kitePkg ++ ".MethodDesc\x7b"]
        ++ (service.Method.map (methodsEntry h (h.CamelCase service.Name))).flatten
        ++ ["\x7d,", "Streams: []" ++ k.kitePkg ++ ".StreamDesc\x7b"]
        ++ (service.Method.map (streamsEntry h (h.CamelCase service.Name))).flatten
        ++ ["\x7d,", "Metadata: \"" ++ file.Name ++ "\",", "\x7d", ""]
      <:+ emitted (generateService h file service index) k
    ∧ (∀ k1, emitted (generateService.methodDescs h
          (service.Method.map (handlerName h (h.CamelCase service.Name))) service.Method 0) k1
        = (service.Method.map (methodsEntry h (h.CamelCase service.Name))).flatten)
    ∧ (∀ k1, emitted (generateService.streamDescs h
          (service.Method.map (handlerName h (h.CamelCase service.Name))) service.Method 0) k1
        = (service.Method.map (streamsEntry h (h.CamelCase service.Name))).flatten)
    ∧ (∀ m servName,
        (methodsEntry h servName m = methodRecord h (handlerName h servName m) m
          ↔ m.ClientStreaming = false ∧ m.ServerStreaming = false)
        ∧ (methodsEntry h servName m = []
          ↔ ¬ (m.ClientStreaming = false ∧ m.ServerStreaming = false))
        ∧ (streamsEntry h servName m = streamRecord h (handlerName h servName m) m
          ↔ (m.ClientStreaming, m.ServerStreaming) = (false, true)
            ∨ (m.ClientStreaming, m.ServerStreaming) = (true, false)
            ∨ (m.ClientStreaming, m.ServerStreaming) = (true, true))
        ∧ (streamsEntry h servName m = []
          ↔ m.ClientStreaming = false ∧ m.ServerStreaming = false)
        ∧ (methodsEntry h servName m ≠ [] ↔ streamsEntry h servName m = [])) := by
  have e := generateService_ends_with_table h file service index u hu k
  refine ⟨e.1, ?_, fun k1 => ?_, fun k1 => ?_, fun m servName => ?_⟩
  · have ht := e.2.2
    simp only [descriptorTable, methodsEntry_flatten, streamsEntry_flatten] at ht
    exact ht
  · have e1 := generateService_methodDescs_run h (handlerName h (h.CamelCase service.Name))
      service.Method [] k1
    simp only [List.nil_append, List.length_nil] at e1
    simp [emitted, e1, methodsEntry_flatten]
  · have e2 := generateService_streamDescs_run h (handlerName h (h.CamelCase service.Name))
      service.Method [] k1
    simp only [List.nil_append, List.length_nil] at e2
    simp [emitted, e2, streamsEntry_flatten]
  · obtain ⟨name, inT, outT, cs, ss, dep⟩ := m
    cases cs <;> cases ss <;>
      simp [methodsEntry, streamsEntry, methodRecord, streamRecord]

theorem generateService_bucket_witness :
    unexport (plainHost.CamelCase mixedService.Name) = some "mixed"
    ∧ (generateService plainHost pingFile mixedService 0 State.empty).1 = some ()
    ∧ mixedService.Method.map (methodsEntry plainHost "Mixed")
        = [methodRecord plainHost "_Mixed_Ping_Handler" pingMethod, [], [],
            methodRecord plainHost "_Mixed_Stat_Handler" statMethod]
    ∧ mixedService.Method.map (streamsEntry plainHost "Mixed")
        = [[], streamRecord plainHost "_Mixed_Chat_Handler" chatMethod,
            streamRecord plainHost "_Mixed_Upload_Handler" uploadMethod, []] :=
  have w := generateService_bucket plainHost pingFile mixedService 0 "mixed" State.empty
    (by decide)
  ⟨by decide, w.1, by decide, by decide⟩

/-! ## Counters of the client pass -/

theorem generateService_clientMethods_eq (h : Host) (servName full sdv : String)
    (ms : List MethodDescriptorProto) (mi si : Nat) :
    generateService.clientMethods h servName full sdv ms mi si
      = generateService.clientMethodsWith h servName full sdv
          (ms.zip (generateService.descExprs sdv ms mi si)) := by
  induction ms generalizing mi si with
  | nil => rfl
  | cons m rest ih =>
    obtain ⟨name, inT, outT, cs, ss, dep⟩ := m
    cases cs <;> cases ss <;>
      simp only [generateService.clientMethods, generateService.descExprs,
        generateService.clientMethodsWith, ih, List.zip_cons_cons, Bool.not_false,
        Bool.not_true, Bool.and_self, Bool.and_false, Bool.false_and, ↓reduceIte,
        Bool.false_eq_true] <;> rfl

theorem descExprs_append (sdv : String) (pre rest : List MethodDescriptorProto)
    (mi si : Nat) :
    generateService.descExprs sdv (pre ++ rest) mi si
      = generateService.descExprs sdv pre mi si
        ++ generateService.descExprs sdv rest (mi + (unaryMethods pre).length)
            (si + (streamMethods pre).length) := by
  induction pre generalizing mi si with
  | nil => simp [generateService.descExprs, unaryMethods, streamMethods]
  | cons m pre ih =>
    obtain ⟨name, inT, outT, cs, ss, dep⟩ := m
    cases cs <;> cases ss <;>
      simp [generateService.descExprs, unaryMethods, streamMethods, isUnary, ih,
        Nat.add_assoc, Nat.add_comm 1]

theorem descExprs_length (sdv : String) (ms : List MethodDescriptorProto) (mi si : Nat) :
    (generateService.descExprs sdv ms mi si).length = ms.length := by
  induction ms generalizing mi si with
  | nil => rfl
  | cons m rest ih =>
    obtain ⟨name, inT, outT, cs, ss, dep⟩ := m
    cases cs <;> cases ss <;> simp [generateService.descExprs, ih]

theorem split_at_getElem? {α : Type} (ms : List α) (p : Nat) (m : α)
    (hp : ms[p]? = some m) :
    ms = ms.take p ++ m :: ms.drop (p + 1) ∧ (ms.take p).length = p := by
  obtain ⟨hlt, hm⟩ := List.getElem?_eq_some_iff.mp hp
  constructor
  · rw [← hm, List.getElem_cons_drop ms p hlt, List.take_append_drop]
  · simp [List.length_take, Nat.min_eq_left (Nat.le_of_lt hlt)]

theorem descExprs_at (sdv : String) (ms : List MethodDescriptorProto) (p : Nat)
    (m : MethodDescriptorProto) (hp : ms[p]? = some m) :
    (generateService.descExprs sdv ms 0 0)[p]?
      = some (if isUnary m
          then "&" ++ sdv ++ ".Methods[" ++ toString (unaryMethods (ms.take p)).length ++ "]"
          else "&" ++ sdv ++ ".Streams[" ++ toString (streamMethods (ms.take p)).length ++ "]")
    ∧ (isUnary m = true → (unaryMethods ms)[(unaryMethods (ms.take p)).length]? = some m)
    ∧ (isUnary m = false → (streamMethods ms)[(streamMethods (ms.take p)).length]? = some m) := by
  obtain ⟨hs, hl⟩ := split_at_getElem? ms p m hp
  have hlen : (generateService.descExprs sdv (ms.take p) 0 0).length = p := by
    rw [descExprs_length, hl]
  refine ⟨?_, fun hm => ?_, fun hm => ?_⟩
  · conv_lhs => rw [hs, descExprs_append]
    rw [List.getElem?_append_right (by omega), hlen, Nat.sub_self]
    obtain ⟨name, inT, outT, cs, ss, dep⟩ := m
    cases cs <;> cases ss <;> simp [generateService.descExprs, isUnary]
  · have e1 : unaryMethods ms
        = unaryMethods (ms.take p) ++ m :: unaryMethods (ms.drop (p + 1)) := by
      conv_lhs => rw [hs]
      simp [unaryMethods, List.filter_cons, hm]
    rw [e1]
    exact getElem?_append_cons_length _ _ _
  · have e1 : streamMethods ms
        = streamMethods (ms.take p) ++ m :: streamMethods (ms.drop (p + 1)) := by
      conv_lhs => rw [hs]
      simp [streamMethods, List.filter_cons, hm]
    rw [e1]
    exact getElem?_append_cons_length _ _ _

theorem descExprs_unary (sdv : String) (ms : List MethodDescriptorProto) (mi si : Nat) :
    ((ms.zip (generateService.descExprs sdv ms mi si)).filter (fun x => isUnary x.1)).map
        Prod.snd
      = (List.range' mi (unaryMethods ms).length).map
          (fun i => "&" ++ sdv ++ ".Methods[" ++ toString i ++ "]") := by
  induction ms generalizing mi si with
  | nil => simp [generateService.descExprs, unaryMethods]
  | cons m rest ih =>
    obtain ⟨name, inT, outT, cs, ss, dep⟩ := m
    cases cs <;> cases ss <;>
      simp [generateService.descExprs, unaryMethods, isUnary, List.range'_succ] <;>
      simpa [unaryMethods] using ih _ _

theorem descExprs_stream (sdv : String) (ms : List MethodDescriptorProto) (mi si : Nat) :
    ((ms.zip (generateService.descExprs sdv ms mi si)).filter (fun x => !isUnary x.1)).map
        Prod.snd
      = (List.range' si (streamMethods ms).length).map
          (fun i => "&" ++ sdv ++ ".Streams[" ++ toString i ++ "]") := by
  induction ms generalizing mi si with
  | nil => simp [generateService.descExprs, streamMethods]
  | cons m rest ih =>
    obtain ⟨name, inT, outT, cs, ss, dep⟩ := m
    cases cs <;> cases ss <;>
      simp [generateService.descExprs, streamMethods, isUnary, List.range'_succ] <;>
      simpa [streamMethods, isUnary] using ih _ _

/-- C1: the client pass of `generateService` calls `generateClientMethod` on each method with
the `descExpr` of the trace `descExprs`; for the method at position `p` that expression is
`Methods[i]` (unary) or `Streams[j]` (streaming) where `i`, `j` count the unary, streaming
methods before `p`, and at that very index the `Methods`, `Streams` list of the descriptor
table holds the record of the same method; the unary indices in declaration order are
`0..k-1`, the stream indices `0..s-1`; and the emitted text ends with that table. -/
theorem generateService_desc_indices (h : Host) (file : FileDescriptor)
    (service : ServiceDescriptorProto) (index : Nat) (k : State) :
    generateService.clientMethods h (h.CamelCase service.Name) (fullServiceName file service)
        ("_" ++ h.CamelCase service.Name ++ "_serviceDesc") service.Method 0 0
      = generateService.clientMethodsWith h (h.CamelCase service.Name)
          (fullServiceName file service) ("_" ++ h.CamelCase service.Name ++ "_serviceDesc")
          (service.Method.zip (generateService.descExprs
            ("_" ++ h.CamelCase service.Name ++ "_serviceDesc") service.Method 0 0))
    ∧ (∀ p m, service.Method[p]? = some m → isUnary m = true →
        (generateService.descExprs ("_" ++ h.CamelCase service.Name ++ "_serviceDesc")
            service.Method 0 0)[p]?
          = some ("&" ++ ("_" ++ h.CamelCase service.Name ++ "_serviceDesc") ++ ".Methods["
              ++ toString (unaryMethods (service.Method.take p)).length ++ "]")
        ∧ ((unaryMethods service.Method).map
            (fun x => methodRecord h (handlerName h (h.CamelCase service.Name) x) x))[
              (unaryMethods (service.Method.take p)).length]?
          = some (methodRecord h (handlerName h (h.CamelCase service.Name) m) m))
    ∧ (∀ p m, service.Method[p]? = some m → isUnary m = false →
        (generateService.descExprs ("_" ++ h.CamelCase service.Name ++ "_serviceDesc")
            service.Method 0 0)[p]?
          = some ("&" ++ ("_" ++ h.CamelCase service.Name ++ "_serviceDesc") ++ ".Streams["
              ++ toString (streamMethods (service.Method.take p)).length ++ "]")
        ∧ ((streamMethods service.Method).map
            (fun x => streamRecord h (handlerName h (h.CamelCase service.Name) x) x))[
              (streamMethods (service.Method.take p)).length]?
          = some (streamRecord h (handlerName h (h.CamelCase service.Name) m) m))
    ∧ ((service.Method.zip (generateService.descExprs
          ("_" ++ h.CamelCase service.Name ++ "_serviceDesc") service.Method 0 0)).filter
            (fun x => isUnary x.1)).map Prod.snd
        = (List.range (unaryMethods service.Method).length).map
            (fun i => "&" ++ ("_" ++ h.CamelCase service.Name ++ "_serviceDesc")
              ++ ".Methods[" ++ toString i ++ "]")
    ∧ ((service.Method.zip (generateService.descExprs
          ("_" ++ h.CamelCase service.Name ++ "_serviceDesc") service.Method 0 0)).filter
            (fun x => !isUnary x.1)).map Prod.snd
        = (List.range (streamMethods service.Method).length).map
            (fun i => "&" ++ ("_" ++ h.CamelCase service.Name ++ "_serviceDesc")
              ++ ".Streams[" ++ toString i ++ "]")
    ∧ (∀ u, unexport (h.CamelCase service.Name) = some u →
        (generateService h file service index k).1 = some ()
        ∧ descriptorTable h k.kitePkg file service
            <:+ emitted (generateService h file service index) k) := by
  refine ⟨generateService_clientMethods_eq _ _ _ _ _ _ _, fun p m hp hm => ?_,
    fun p m hp hm => ?_, ?_, ?_, fun u hu =>
      ⟨(generateService_ends_with_table h file service index u hu k).1,
        (generateService_ends_with_table h file service index u hu k).2.2⟩⟩
  · have e := descExprs_at ("_" ++ h.CamelCase service.Name ++ "_serviceDesc") service.Method
      p m hp
    refine ⟨by simpa [hm] using e.1, ?_⟩
    rw [List.getElem?_map, e.2.1 hm]
    rfl
  · have e := descExprs_at ("_" ++ h.CamelCase service.Name ++ "_serviceDesc") service.Method
      p m hp
    refine ⟨by simpa [hm] using e.1, ?_⟩
    rw [List.getElem?_map, e.2.2 hm]
    rfl
  · rw [descExprs_unary, List.range_eq_range']
  · rw [descExprs_stream, List.range_eq_range']

theorem generateService_desc_indices_witness :
    (mixedMethods[3]? = some statMethod ∧ isUnary statMethod = true
      ∧ (generateService.descExprs ("_" ++ plainHost.CamelCase "Mixed" ++ "_serviceDesc")
            mixedMethods 0 0)[3]?
          = some ("&" ++ ("_" ++ plainHost.CamelCase "Mixed" ++ "_serviceDesc") ++ ".Methods["
              ++ toString (unaryMethods (mixedMethods.take 3)).length ++ "]"))
    ∧ (unexport (plainHost.CamelCase mixedService.Name) = some "mixed"
      ∧ descriptorTable plainHost State.empty.kitePkg pingFile mixedService
          <:+ emitted (generateService plainHost pingFile mixedService 0) State.empty) :=
  have w := generateService_desc_indices plainHost pingFile mixedService 0 State.empty
  ⟨⟨by decide, by decide, (w.2.1 3 statMethod (by decide) (by decide)).1⟩,
    by decide, (w.2.2.2.2.2 "mixed" (by decide)).2⟩

/-! ## Interfaces -/

theorem generateClientSignature_run (h : Host) (servName : String)
    (m : MethodDescriptorProto) :
    ∃ us, ∀ k : State, generateClientSignature h servName m k
      = (some (clientSignature h k.contextPkg k.kitePkg servName m),
          { k with usedTypes := k.usedTypes ++ us }) := by
  obtain ⟨name, inT, outT, cs, ss, dep⟩ := m
  refine ⟨[inT, outT], fun k => ?_⟩
  cases cs <;> cases ss <;>
    simp [generateClientSignature, reservedClientName, clientSignature, isUnary]

theorem generateServerSignature_run (h : Host) (servName : String)
    (m : MethodDescriptorProto) :
    ∃ us, ∀ k : State, generateServerSignature h servName m k
      = (some (serverSignature h k.contextPkg servName m),
          { k with usedTypes := k.usedTypes ++ us }) := by
  obtain ⟨name, inT, outT, cs, ss, dep⟩ := m
  cases cs <;> cases ss
  · exact ⟨[outT, inT], fun k => by
      simp [generateServerSignature, reservedClientName, serverSignature, isUnary,
        serverParams, serverReturn, joinComma, String.ext_iff]⟩
  · exact ⟨[inT], fun k => by
      simp [generateServerSignature, reservedClientName, serverSignature, isUnary,
        serverParams, serverReturn, joinComma, String.ext_iff]⟩
  · exact ⟨[], fun k => by
      simp [generateServerSignature, reservedClientName, serverSignature, isUnary,
        serverParams, serverReturn, joinComma, String.ext_iff]⟩
  · exact ⟨[], fun k => by
      simp [generateServerSignature, reservedClientName, serverSignature, isUnary,
        serverParams, serverReturn, joinComma, String.ext_iff]⟩

theorem generateService_clientInterface_run (h : Host) (path servName : String)
    (hc : ∀ p, h.Comments p = none) (ms : List MethodDescriptorProto) (i : Nat) :
    ∃ us, ∀ k : State, generateService.clientInterface h path servName ms i k
      = (some (), { k with
          out := k.out ++ interfaceBody (clientSignature h k.contextPkg k.kitePkg servName) ms,
          usedTypes := k.usedTypes ++ us }) := by
  induction ms generalizing i with
  | nil => exact ⟨[], fun k => by simp [generateService.clientInterface, interfaceBody]⟩
  | cons m rest ih =>
    obtain ⟨us, hs⟩ := generateClientSignature_run h servName m
    obtain ⟨ur, hr⟩ := ih (i + 1)
    refine ⟨us ++ ur, fun k => ?_⟩
    cases hd : m.Deprecated <;>
      simp [generateService.clientInterface, PrintComments, hc, hs, hr, hd, interfaceBody,
        deprecationLines]

theorem generateService_serverInterface_run (h : Host) (path servName : String)
    (hc : ∀ p, h.Comments p = none) (ms : List MethodDescriptorProto) (i : Nat) :
    ∃ us, ∀ k : State, generateService.serverInterface h path servName ms i k
      = (some (), { k with
          out := k.out ++ interfaceBody (serverSignature h k.contextPkg servName) ms,
          usedTypes := k.usedTypes ++ us }) := by
  induction ms generalizing i with
  | nil => exact ⟨[], fun k => by simp [generateService.serverInterface, interfaceBody]⟩
  | cons m rest ih =>
    obtain ⟨us, hs⟩ := generateServerSignature_run h servName m
    obtain ⟨ur, hr⟩ := ih (i + 1)
    refine ⟨us ++ ur, fun k => ?_⟩
    cases hd : m.Deprecated <;>
      simp [generateService.serverInterface, PrintComments, hc, hs, hr, hd, interfaceBody,
        deprecationLines]

theorem interfaceBody_split (sig : MethodDescriptorProto → String)
    (pre post : List MethodDescriptorProto) (m : MethodDescriptorProto) :
    interfaceBody sig (pre ++ m :: post)
      = interfaceBody sig pre ++ (deprecationLines m ++ sig m :: interfaceBody sig post) := by
  simp [interfaceBody]

theorem getLast?_of_eq_concat {α : Type} {l i : List α} {a : α} (e : l = i ++ [a]) :
    l.getLast? = some a := by
  rw [e]; exact List.getLast?_concat i

theorem interfaceBody_getLast (sig : MethodDescriptorProto → String) (hdr : String)
    (pre : List MethodDescriptorProto) :
    (hdr :: interfaceBody sig pre).getLast? = some hdr
    ∨ ∃ x, (hdr :: interfaceBody sig pre).getLast? = some (sig x) := by
  rcases List.eq_nil_or_concat pre with e | ⟨init, x, e⟩
  · left; subst e; simp [interfaceBody]
  · right
    refine ⟨x, ?_⟩
    subst e
    apply getLast?_of_eq_concat (i := hdr :: (interfaceBody sig init ++ deprecationLines x))
    rw [List.concat_eq_append, interfaceBody_split]
    simp [interfaceBody]

theorem signature_preceded_iff (sig : MethodDescriptorProto → String) (hdr : String)
    (hh : hdr ≠ deprecationComment) (hsig : ∀ x, sig x ≠ deprecationComment)
    (pre : List MethodDescriptorProto) (m : MethodDescriptorProto) :
    ((hdr :: interfaceBody sig pre) ++ deprecationLines m).getLast? = some deprecationComment
      ↔ m.Deprecated = true := by
  cases hd : m.Deprecated
  · simp only [deprecationLines, hd, Bool.false_eq_true, if_false, List.append_nil, iff_false]
    rcases interfaceBody_getLast sig hdr pre with e | ⟨x, e⟩
    · rw [e]; simpa using hh
    · rw [e]; simpa using hsig x
  · simp only [iff_true]
    apply getLast?_of_eq_concat (i := hdr :: (interfaceBody sig pre ++ ["//"]))
    simp [deprecationLines, hd]

theorem clientSignature_ne (h : Host) (c p s : String) (m : MethodDescriptorProto) :
    clientSignature h c p s m ≠ deprecationComment := by
  unfold clientSignature deprecationComment
  simp (disch := decide) only [ends_eq_lit_false, ne_eq, not_false_eq_true]

theorem serverSignature_ne (h : Host) (c s : String) (m : MethodDescriptorProto) :
    serverSignature h c s m ≠ deprecationComment := by
  unfold serverSignature deprecationComment serverReturn
  cases isUnary m <;>
    simp (disch := decide) only [ends_eq_lit_false, ne_eq, not_false_eq_true, if_true,
      if_false, Bool.false_eq_true, ← String.append_assoc]

theorem infix_base {α : Type} (a c : α) (B t : List α) :
    a :: (B ++ [c]) <:+: a :: (B ++ c :: t) :=
  ⟨[], t, by simp⟩

theorem infix_of_cons_right {α : Type} {l r : List α} (a : α) (hs : l <:+: r) :
    l <:+: a :: r := hs.trans (List.suffix_cons a r).isInfix

theorem infix_of_append_right {α : Type} {l r : List α} (p : List α) (hs : l <:+: r) :
    l <:+: p ++ r := hs.trans (List.suffix_append p r).isInfix

theorem generateService_interfaces (h : Host) (file : FileDescriptor)
    (service : ServiceDescriptorProto) (index : Nat) (u : String) (k : State)
    (hu : unexport (h.CamelCase service.Name) = some u) (hc : ∀ p, h.Comments p = none) :
    ("type " ++ (h.CamelCase service.Name ++ "Client interface \x7b"))
        :: (interfaceBody (clientSignature h k.contextPkg k.kitePkg
              (h.CamelCase service.Name)) service.Method ++ ["\x7d"])
      <:+: emitted (generateService h file service index) k
    ∧ ("type " ++ (h.CamelCase service.Name ++ "Server" ++ " interface \x7b"))
        :: (interfaceBody (serverSignature h k.contextPkg (h.CamelCase service.Name))
              service.Method ++ ["\x7d"])
      <:+: emitted (generateService h file service index) k := by
  have e := generateService_serviceDesc_run h file service
  obtain ⟨sname, ms, dep⟩ := service
  simp only at hu
  obtain ⟨uc, hcl⟩ := generateService_clientInterface_run h ("6," ++ toString index)
    (h.CamelCase sname) hc ms 0
  obtain ⟨us, hsv⟩ := generateService_serverInterface_run h ("6," ++ toString index)
    (h.CamelCase sname) hc ms 0
  unfold emitted
  by_cases hp : file.Package = "" <;> cases dep <;>
    simp [fullServiceName, hp] at e <;>
    simp [generateService, hu, hp, e, hcl, hsv,
      Gen.ok_run_unit (generateService_clientMethods_ok _ _ _ _ u hu _ _ _),
      Gen.ok_run_unit (generateUnimplementedServer_ok _ _ _),
      generateService_serverMethods_run _ _ _ u hu,
      Gen.frame_exec_kitePkg (generateService_clientMethods_frame _ _ _ _ _ _ _),
      Gen.frame_exec_kitePkg (generateUnimplementedServer_frame _ _ _),
      Gen.frame_exec_kitePkg (generateService_serverMethods_frame _ _ _ _ _),
      Gen.frame_exec_contextPkg (generateService_clientMethods_frame _ _ _ _ _ _ _),
      Gen.frame_exec_contextPkg (generateUnimplementedServer_frame _ _ _),
      Gen.frame_exec_contextPkg (generateService_serverMethods_frame _ _ _ _ _),
      Gen.frame_exec_out (generateService_clientMethods_frame _ _ _ _ _ _ _),
      Gen.frame_exec_out (generateUnimplementedServer_frame _ _ _),
      Gen.frame_exec_out (generateService_serverMethods_frame _ _ _ _ _)]
  all_goals
    constructor <;>
    repeat first
      | exact infix_base _ _ _ _
      | apply infix_of_cons_right
      | apply infix_of_append_right

/-- C10: with no source comments, the client interface and the server interface emitted by
`generateService` are the header line, then for each method its deprecation lines and its
signature line, then the closing line; the line just before the signature line of a method
is the fixed deprecation comment iff the method's deprecated option is set. -/
theorem generateService_deprecation (h : Host) (file : FileDescriptor)
    (service : ServiceDescriptorProto) (index : Nat) (u : String) (k : State)
    (hu : unexport (h.CamelCase service.Name) = some u) (hc : ∀ p, h.Comments p = none) :
    (("type " ++ (h.CamelCase service.Name ++ "Client interface \x7b"))
        :: (interfaceBody (clientSignature h k.contextPkg k.kitePkg
              (h.CamelCase service.Name)) service.Method ++ ["\x7d"])
      <:+: emitted (generateService h file service index) k)
    ∧ (("type " ++ (h.CamelCase service.Name ++ "Server" ++ " interface \x7b"))
        :: (interfaceBody (serverSignature h k.contextPkg (h.CamelCase service.Name))
              service.Method ++ ["\x7d"])
      <:+: emitted (generateService h file service index) k)
    ∧ (∀ m k1, (generateClientSignature h (h.CamelCase service.Name) m k1).1
        = some (clientSignature h k1.contextPkg k1.kitePkg (h.CamelCase service.Name) m))
    ∧ (∀ m k1, (generateServerSignature h (h.CamelCase service.Name) m k1).1
        = some (serverSignature h k1.contextPkg (h.CamelCase service.Name) m))
    ∧ (∀ pre m post, service.Method = pre ++ m :: post →
        (interfaceBody (clientSignature h k.contextPkg k.kitePkg (h.CamelCase service.Name))
            service.Method
          = interfaceBody (clientSignature h k.contextPkg k.kitePkg
                (h.CamelCase service.Name)) pre
            ++ ((if m.Deprecated then ["//", "// Deprecated: Do not use."] else [])
              ++ clientSignature h k.contextPkg k.kitePkg (h.CamelCase service.Name) m
                :: interfaceBody (clientSignature h k.contextPkg k.kitePkg
                    (h.CamelCase service.Name)) post))
        ∧ (((("type " ++ (h.CamelCase service.Name ++ "Client interface \x7b"))
              :: interfaceBody (clientSignature h k.contextPkg k.kitePkg
                    (h.CamelCase service.Name)) pre)
              ++ (if m.Deprecated then ["//", "// Deprecated: Do not use."] else [])).getLast?
            = some "// Deprecated: Do not use." ↔ m.Deprecated = true)
        ∧ (interfaceBody (serverSignature h k.contextPkg (h.CamelCase service.Name))
            service.Method
          = interfaceBody (serverSignature h k.contextPkg (h.CamelCase service.Name)) pre
            ++ ((if m.Deprecated then ["//", "// Deprecated: Do not use."] else [])
              ++ serverSignature h k.contextPkg (h.CamelCase service.Name) m
                :: interfaceBody (serverSignature h k.contextPkg
                    (h.CamelCase service.Name)) post))
        ∧ (((("type " ++ (h.CamelCase service.Name ++ "Server" ++ " interface \x7b"))
              :: interfaceBody (serverSignature h k.contextPkg (h.CamelCase service.Name)) pre)
              ++ (if m.Deprecated then ["//", "// Deprecated: Do not use."] else [])).getLast?
            = some "// Deprecated: Do not use." ↔ m.Deprecated = true)) := by
  have hi := generateService_interfaces h file service index u k hu hc
  refine ⟨hi.1, hi.2, fun m k1 => ?_, fun m k1 => ?_, fun pre m post hs => ?_⟩
  · obtain ⟨us, e⟩ := generateClientSignature_run h (h.CamelCase service.Name) m
    rw [e k1]
  · obtain ⟨us, e⟩ := generateServerSignature_run h (h.CamelCase service.Name) m
    rw [e k1]
  · have hC : "type " ++ (h.CamelCase service.Name ++ "Client interface \x7b")
        ≠ deprecationComment := by
      unfold deprecationComment
      simp (disch := decide) only [append_eq_false, ne_eq, not_false_eq_true]
    have hS : "type " ++ (h.CamelCase service.Name ++ "Server" ++ " interface \x7b")
        ≠ deprecationComment := by
      unfold deprecationComment
      simp (disch := decide) only [append_eq_false, ne_eq, not_false_eq_true]
    rw [hs]
    exact ⟨interfaceBody_split _ pre post m,
      signature_preceded_iff _ _ hC (clientSignature_ne h _ _ _) pre m,
      interfaceBody_split _ pre post m,
      signature_preceded_iff _ _ hS (serverSignature_ne h _ _) pre m⟩

theorem generateService_deprecation_witness :
    unexport (plainHost.CamelCase mixedService.Name) = some "mixed"
    ∧ (∀ p, plainHost.Comments p = none)
    ∧ (("type " ++ (plainHost.CamelCase mixedService.Name ++ "Client interface \x7b"))
        :: (interfaceBody (clientSignature plainHost State.empty.contextPkg
              State.empty.kitePkg (plainHost.CamelCase mixedService.Name))
              mixedService.Method ++ ["\x7d"])
      <:+: emitted (generateService plainHost pingFile mixedService 0) State.empty) :=
  ⟨by decide, fun _ => rfl,
    (generateService_deprecation plainHost pingFile mixedService 0 "mixed" State.empty
      (by decide) (fun _ => rfl)).1⟩

/-! ## The unimplemented server -/

theorem generateServerMethodConcrete_run (h : Host) (servName : String)
    (m : MethodDescriptorProto) :
    ∃ us, ∀ k : State, generateServerMethodConcrete h servName m k
      = (some (), { k with
          out := k.out ++ stubLines h k.contextPkg servName m,
          addedImports := k.addedImports ++ [statusPkgPath, codePkgPath],
          usedTypes := k.usedTypes ++ us }) := by
  obtain ⟨name, inT, outT, cs, ss, dep⟩ := m
  cases cs <;> cases ss
  · exact ⟨[outT, inT], fun k => by
      simp [generateServerMethodConcrete, generateServerSignatureWithParamNames,
        reservedClientName, AddImport, stubLines, stubReturn, serverSignatureWithParamNames,
        isUnary, serverParams, serverReturn, joinComma, String.ext_iff]⟩
  · exact ⟨[inT], fun k => by
      simp [generateServerMethodConcrete, generateServerSignatureWithParamNames,
        reservedClientName, AddImport, stubLines, stubReturn, serverSignatureWithParamNames,
        isUnary, serverParams, serverReturn, joinComma, String.ext_iff]⟩
  · exact ⟨[], fun k => by
      simp [generateServerMethodConcrete, generateServerSignatureWithParamNames,
        reservedClientName, AddImport, stubLines, stubReturn, serverSignatureWithParamNames,
        isUnary, serverParams, serverReturn, joinComma, String.ext_iff]⟩
  · exact ⟨[], fun k => by
      simp [generateServerMethodConcrete, generateServerSignatureWithParamNames,
        reservedClientName, AddImport, stubLines, stubReturn, serverSignatureWithParamNames,
        isUnary, serverParams, serverReturn, joinComma, String.ext_iff]⟩

theorem generateUnimplementedServer_methods_run (h : Host) (servName : String)
    (ms : List MethodDescriptorProto) :
    ∃ us is, ∀ k : State, generateUnimplementedServer.methods h servName ms k
      = (some (), { k with
          out := k.out ++ (ms.map (stubLines h k.contextPkg servName)).flatten,
          addedImports := k.addedImports ++ is,
          usedTypes := k.usedTypes ++ us }) := by
  induction ms with
  | nil => exact ⟨[], [], fun k => by simp [generateUnimplementedServer.methods]⟩
  | cons m rest ih =>
    obtain ⟨us, hs⟩ := generateServerMethodConcrete_run h servName m
    obtain ⟨ur, ir, hr⟩ := ih
    refine ⟨us ++ ur, [statusPkgPath, codePkgPath] ++ ir, fun k => ?_⟩
    simp [generateUnimplementedServer.methods, hs, hr]

theorem stubReturn_nil_ne (s c msg : String) :
    stubReturn true s c msg ≠ stubReturn false s c msg := by
  intro e
  have e2 := congrArg String.length e
  simp only [stubReturn, String.length_append, ↓reduceIte, Bool.false_eq_true] at e2
  have l1 : "nil, ".length = 5 := rfl
  have l2 : "".length = 0 := rfl
  omega

/-- C11: `generateUnimplementedServer` completes and emits the comment and the struct
`Unimplemented<Service>Server`, then one stub per method in declaration order and nothing
between them, then an empty line; so a service with `n` methods gets exactly `n` stubs.  The
stub of the method at position `p` is headed by the receiver `*Unimplemented<Service>Server`
and that method's server signature with parameter names, and its return statement returns
`nil, ` ahead of the error value if and only if the method is unary. -/
theorem generateUnimplementedServer_stubs (h : Host) (servName : String)
    (service : ServiceDescriptorProto) (k : State) :
    (generateUnimplementedServer h servName service k).1 = some ()
    ∧ emitted (generateUnimplementedServer h servName service) k
        = ["// Unimplemented" ++ (servName ++ "Server")
              ++ " can be embedded to have forward compatible implementations.",
            "type Unimplemented" ++ (servName ++ "Server") ++ " struct \x7b", "\x7d", ""]
          ++ (service.Method.map (stubLines h k.contextPkg servName)).flatten ++ [""]
    ∧ (service.Method.map (stubLines h k.contextPkg servName)).length = service.Method.length
    ∧ (∀ (p : Nat) m, service.Method[p]? = some m →
        (service.Method.map (stubLines h k.contextPkg servName))[p]?
          = some ["func (*Unimplemented" ++ servName ++ "Server) "
                ++ serverSignatureWithParamNames h k.contextPkg servName m ++ " \x7b",
              stubReturn (isUnary m) (h.GoPackageName statusPkgPath)
                (h.GoPackageName codePkgPath)
                ("method " ++ h.CamelCase m.Name ++ " not implemented"),
              "\x7d"]
        ∧ (generateServerSignatureWithParamNames h servName m k).1
            = some (serverSignatureWithParamNames h k.contextPkg servName m)
        ∧ ∀ s c msg b, stubReturn (isUnary m) s c msg = stubReturn b s c msg → b = isUnary m)
    := by
  obtain ⟨us, is, hr⟩ := generateUnimplementedServer_methods_run h servName service.Method
  refine ⟨?_, ?_, by simp, ?_⟩
  · simp [generateUnimplementedServer, hr]
  · simp [generateUnimplementedServer, hr, emitted, String.append_assoc]
  · intro p m hp
    refine ⟨by simp [hp, stubLines], ?_, ?_⟩
    · simpa [serverSignatureWithParamNames] using
        (generateServerSignature_shape h servName m k).2
    · intro s c msg b e
      cases b <;> cases hm : isUnary m <;> simp [hm] at e ⊢
      · exact absurd e (stubReturn_nil_ne s c msg)
      · exact absurd e.symm (stubReturn_nil_ne s c msg)

theorem generateUnimplementedServer_stubs_witness :
    (generateUnimplementedServer plainHost "Mixed" mixedService State.empty).1 = some ()
    ∧ (mixedService.Method.map (stubLines plainHost State.empty.contextPkg "Mixed")).length
        = 4 :=
  have w := generateUnimplementedServer_stubs plainHost "Mixed" mixedService State.empty
  ⟨w.1, w.2.2.1⟩

/-! ## The reserved-name table -/

/-- C12: for every content of the reserved-name table and every method, the three signature
builders yield a text that starts with the same identifier followed by the opening
parenthesis; the identifier is `methodIdent`, the camel-cased name with one trailing
underscore when the table reserves it and the camel-cased name itself otherwise, and what
follows it does not depend on the table.  The builders of the source are the instances at
`reservedClientName`, which reserves nothing, so there the identifier is the camel-cased
name. -/
theorem generateSignatures_methodIdent (h : Host) (servName : String)
    (m : MethodDescriptorProto) (k : State) :
    ∃ c s p : String,
      (∀ reserved : String → Bool,
        (generateClientSignature.withTable reserved h servName m k).1
            = some (methodIdent reserved h m ++ "(" ++ c)
        ∧ (generateServerSignature.withTable reserved h servName m k).1
            = some (methodIdent reserved h m ++ "(" ++ s)
        ∧ (generateServerSignatureWithParamNames.withTable reserved h servName m k).1
            = some (methodIdent reserved h m ++ "(" ++ p)
        ∧ (methodIdent reserved h m
            = if reserved (h.CamelCase m.Name) then h.CamelCase m.Name ++ "_"
              else h.CamelCase m.Name))
      ∧ generateClientSignature h servName m
          = generateClientSignature.withTable reservedClientName h servName m
      ∧ generateServerSignature h servName m
          = generateServerSignature.withTable reservedClientName h servName m
      ∧ generateServerSignatureWithParamNames h servName m
          = generateServerSignatureWithParamNames.withTable reservedClientName h servName m
      ∧ (∀ name, reservedClientName name = false)
      ∧ (generateClientSignature h servName m k).1 = some (h.CamelCase m.Name ++ "(" ++ c)
      ∧ (generateServerSignature h servName m k).1 = some (h.CamelCase m.Name ++ "(" ++ s)
      ∧ (generateServerSignatureWithParamNames h servName m k).1
          = some (h.CamelCase m.Name ++ "(" ++ p) := by
  refine ⟨"ctx " ++ k.contextPkg ++ ".Context"
      ++ (if m.ClientStreaming then "" else ", in *" ++ h.TypeName m.InputType)
      ++ ", opts ..." ++ k.kitePkg ++ ".CallOption) ("
      ++ (if isUnary m then "*" ++ h.TypeName m.OutputType
          else servName ++ "_" ++ h.CamelCase m.Name ++ "Client")
      ++ ", error)",
    joinComma (serverParams h k.contextPkg servName m "" "" "") ++ ") " ++ serverReturn h m,
    joinComma (serverParams h k.contextPkg servName m "ctx " "req " "srv ") ++ ") "
      ++ serverReturn h m, ?_, rfl, rfl, rfl, fun _ => rfl, ?_, ?_, ?_⟩
  · intro reserved
    obtain ⟨name, inT, outT, cs, ss, dep⟩ := m
    cases hr : reserved (h.CamelCase name) <;> cases cs <;> cases ss <;>
      simp [generateClientSignature.withTable, generateServerSignature.withTable,
        generateServerSignatureWithParamNames.withTable, methodIdent, hr, isUnary,
        serverParams, serverReturn, joinComma, String.ext_iff]
  · simpa [String.append_assoc] using generateClientSignature_shape h servName m k
  · simpa [String.append_assoc] using (generateServerSignature_shape h servName m k).1
  · simpa [String.append_assoc] using (generateServerSignature_shape h servName m k).2

/-! ## The identifier a handler invokes -/

theorem generateServerMethod_calls (h : Host) (servName full u : String)
    (m : MethodDescriptorProto) (k : State) (hu : unexport servName = some u)
    (ident : String) :
    (∀ l ∈ handlerCalls h servName ident (u ++ h.CamelCase m.Name ++ "Server") m,
        l ∈ emitted (generateServerMethod h servName full m) k)
      ↔ ident = h.CamelCase m.Name := by
  obtain ⟨name, inT, outT, cs, ss, dep⟩ := m
  cases cs <;> cases ss <;>
    simp [generateServerMethod, hu, emitted, handlerCalls, serverCall, joinComma, isUnary,
      callShape, argText, String.append_assoc] <;>
    simp (disch := decide) only [append_eq_append_false, eq_append_false, append_eq_false,
      lit_eq_false, append_left_cancel_eq, ends_eq_lit_false, ends2_eq_ends_false,
      ends_eq_ends5_false, ends_eq_ends6_false, false_or, or_false] <;>
    simp only [← String.append_assoc] <;>
    simp (disch := decide) only [ends_eq_ends1_false, ends_eq_lit_false, false_or, or_false] <;>
    simp [String.ext_iff]

theorem methodIdent_eq_iff (reserved : String → Bool) (h : Host) (m : MethodDescriptorProto) :
    methodIdent reserved h m = h.CamelCase m.Name ↔ reserved (h.CamelCase m.Name) = false := by
  cases hr : reserved (h.CamelCase m.Name)
  · simp [methodIdent, hr]
  · simp only [methodIdent, hr, ↓reduceIte, Bool.true_eq_false, iff_false]
    intro e
    have e2 := congrArg String.length e
    have l1 : "_".length = 1 := rfl
    simp only [String.length_append] at e2
    omega

theorem generateServerMethod_invokes_iff (reserved : String → Bool) (h : Host)
    (servName full u : String) (m : MethodDescriptorProto) (k : State)
    (hu : unexport servName = some u) :
    (generateServerSignature.withTable reserved h servName m k).1
        = some (methodIdent reserved h m ++ "("
            ++ (joinComma (serverParams h k.contextPkg servName m "" "" "") ++ ") "
              ++ serverReturn h m))
    ∧ ((∀ l ∈ handlerCalls h servName (methodIdent reserved h m)
            (u ++ h.CamelCase m.Name ++ "Server") m,
          l ∈ emitted (generateServerMethod h servName full m) k)
        ↔ reserved (h.CamelCase m.Name) = false) := by
  refine ⟨?_, ?_⟩
  · obtain ⟨name, inT, outT, cs, ss, dep⟩ := m
    cases hr : reserved (h.CamelCase name) <;> cases cs <;> cases ss <;>
      simp [generateServerSignature.withTable, methodIdent, hr, isUnary, serverParams,
        serverReturn, joinComma, String.ext_iff]
  · rw [generateServerMethod_calls h servName full u m k hu, methodIdent_eq_iff]

/-- C13, at the reserved-name table that reserves `Ping` and the unary method `Ping` of the
service `Ping`: `generateServerSignature` declares `Ping_` in the interface `PingServer`, as
the two other signature builders do, while the dispatch handler that `generateServerMethod`
emits invokes `Ping`; no call of `Ping_` is emitted. -/
theorem generateServerMethod_invokes_unsuffixed :
    (generateServerSignature.withTable reservePing plainHost "Ping" pingMethod readyState).1
      = some "Ping_(context.Context, *PingRequest) (*PingResponse, error)"
    ∧ (generateServerSignatureWithParamNames.withTable reservePing plainHost "Ping" pingMethod
        readyState).1
      = some "Ping_(ctx context.Context, req *PingRequest) (*PingResponse, error)"
    ∧ methodIdent reservePing plainHost pingMethod = "Ping_"
    ∧ "if interceptor == nil \x7b return srv.(PingServer).Ping(ctx, in) \x7d"
        ∈ emitted (generateServerMethod plainHost "Ping" "demo.Ping" pingMethod) readyState
    ∧ "return srv.(PingServer).Ping(ctx, req.(*PingRequest))"
        ∈ emitted (generateServerMethod plainHost "Ping" "demo.Ping" pingMethod) readyState
    ∧ ¬ (∀ l ∈ handlerCalls plainHost "Ping" (methodIdent reservePing plainHost pingMethod)
            "pingPingServer" pingMethod,
          l ∈ emitted (generateServerMethod plainHost "Ping" "demo.Ping" pingMethod) readyState)
    := by
  decide

/-! ## Names -/

theorem handlerName_eq_iff (h : Host) (servName : String) (m1 m2 : MethodDescriptorProto) :
    handlerName h servName m1 = handlerName h servName m2
      ↔ h.CamelCase m1.Name = h.CamelCase m2.Name := by
  simp [handlerName, String.ext_iff]

theorem streamInterfaceName_eq_iff (h : Host) (servName side : String)
    (m1 m2 : MethodDescriptorProto) :
    streamInterfaceName h servName side m1 = streamInterfaceName h servName side m2
      ↔ h.CamelCase m1.Name = h.CamelCase m2.Name := by
  simp [streamInterfaceName, String.ext_iff]

theorem nodup_map_of_camel (h : Host) (f : MethodDescriptorProto → String)
    (hf : ∀ m1 m2, f m1 = f m2 ↔ h.CamelCase m1.Name = h.CamelCase m2.Name)
    (ms : List MethodDescriptorProto)
    (hd : (ms.map (fun m => h.CamelCase m.Name)).Nodup) : (ms.map f).Nodup := by
  induction ms with
  | nil => simp
  | cons m rest ih =>
    simp only [List.map_cons, List.nodup_cons, List.mem_map, not_exists, not_and] at hd ⊢
    exact ⟨fun x hx e => hd.1 x hx ((hf x m).1 e), ih hd.2⟩

/-- C14, two methods of one service with the distinct, non-empty schema names `get_user` and
`GetUser`: `generateServerMethod` gives both the handler name `_Users_GetUser_Handler`. -/
theorem handlerName_collision :
    getUserSnake.Name ≠ getUserCamel.Name
    ∧ getUserSnake.Name ≠ "" ∧ getUserCamel.Name ≠ ""
    ∧ (generateServerMethod goHost "Users" "demo.Users" getUserSnake readyState).1
        = some "_Users_GetUser_Handler"
    ∧ (generateServerMethod goHost "Users" "demo.Users" getUserCamel readyState).1
        = some "_Users_GetUser_Handler"
    ∧ ¬ ([getUserSnake, getUserCamel].map (handlerName goHost "Users")).Nodup
    ∧ ¬ ([getUserSnake, getUserCamel].map (streamInterfaceName goHost "Users" "Client")).Nodup
    := by
  decide

/-- C14, amended: for every service whose methods have pairwise distinct camel-cased names,
the handler names `_<Service>_<Camel(Method)>_Handler`, which are the names
`generateServerMethod` returns and the handler pass of `generateService` collects, are
pairwise distinct, and so are the stream-interface names `<Service>_<Camel(Method)>Client`,
which `generateClientMethod` declares and `generateClientSignature` returns, and
`<Service>_<Camel(Method)>Server`, which `generateServerMethod` declares and
`generateServerSignature` takes; two methods get the same name exactly when their
camel-cased names are the same. -/
theorem handlerName_nodup (h : Host) (servName : String) (ms : List MethodDescriptorProto)
    (hd : (ms.map (fun m => h.CamelCase m.Name)).Nodup) :
    (ms.map (handlerName h servName)).Nodup
    ∧ (ms.map (streamInterfaceName h servName "Client")).Nodup
    ∧ (ms.map (streamInterfaceName h servName "Server")).Nodup
    ∧ (∀ m1 m2, handlerName h servName m1 = handlerName h servName m2
        ↔ h.CamelCase m1.Name = h.CamelCase m2.Name)
    ∧ (∀ side m1 m2,
        streamInterfaceName h servName side m1 = streamInterfaceName h servName side m2
          ↔ h.CamelCase m1.Name = h.CamelCase m2.Name)
    ∧ (∀ full u k, unexport servName = some u →
        (generateService.serverMethods h servName full ms [] k).1
          = some (ms.map (handlerName h servName)))
    ∧ (∀ full u k m, unexport servName = some u →
        (generateServerMethod h servName full m k).1 = some (handlerName h servName m)
        ∧ (isUnary m = false →
            "type " ++ streamInterfaceName h servName "Server" m ++ " interface \x7b"
              ∈ emitted (generateServerMethod h servName full m) k))
    ∧ (∀ full sdv d u k m, unexport servName = some u → isUnary m = false →
        "type " ++ streamInterfaceName h servName "Client" m ++ " interface \x7b"
          ∈ emitted (generateClientMethod h servName full sdv m d) k
        ∧ ∃ pre, (generateClientSignature h servName m k).1
            = some (pre ++ streamInterfaceName h servName "Client" m ++ ", error)"))
    ∧ (∀ k m, isUnary m = false →
        ∃ pre, (generateServerSignature h servName m k).1
          = some (pre ++ streamInterfaceName h servName "Server" m ++ ") error")) := by
  refine ⟨nodup_map_of_camel h _ (handlerName_eq_iff h servName) ms hd,
    nodup_map_of_camel h _ (streamInterfaceName_eq_iff h servName "Client") ms hd,
    nodup_map_of_camel h _ (streamInterfaceName_eq_iff h servName "Server") ms hd,
    handlerName_eq_iff h servName, streamInterfaceName_eq_iff h servName, ?_, ?_, ?_, ?_⟩
  · intro full u k hu
    simpa using generateService_serverMethods_fst h servName full u hu ms [] k
  · intro full u k m hu
    refine ⟨generateServerMethod_fst h servName full u m hu k, fun hm => ?_⟩
    obtain ⟨name, inT, outT, cs, ss, dep⟩ := m
    cases cs <;> cases ss <;> simp [isUnary] at hm <;>
      simp [generateServerMethod, hu, emitted, streamInterfaceName, String.append_assoc]
  · intro full sdv d u k m hu hm
    constructor
    · obtain ⟨name, inT, outT, cs, ss, dep⟩ := m
      cases cs <;> cases ss <;> simp [isUnary] at hm <;> cases dep <;>
        simp [generateClientMethod, generateClientSignature, reservedClientName, hu, emitted,
          streamInterfaceName, String.append_assoc]
    · refine ⟨h.CamelCase m.Name ++ "(ctx " ++ k.contextPkg ++ ".Context"
        ++ (if m.ClientStreaming then "" else ", in *" ++ h.TypeName m.InputType)
        ++ ", opts ..." ++ k.kitePkg ++ ".CallOption) (", ?_⟩
      rw [generateClientSignature_shape]
      simp [hm, streamInterfaceName, String.append_assoc]
  · intro k m hm
    obtain ⟨name, inT, outT, cs, ss, dep⟩ := m
    cases cs <;> cases ss <;> simp [isUnary] at hm
    · exact ⟨h.CamelCase name ++ "(*" ++ h.TypeName inT ++ ", ", by
        rw [(generateServerSignature_shape h servName _ k).1]
        simp [serverParams, serverReturn, isUnary, joinComma, streamInterfaceName,
          String.ext_iff]⟩
    · exact ⟨h.CamelCase name ++ "(", by
        rw [(generateServerSignature_shape h servName _ k).1]
        simp [serverParams, serverReturn, isUnary, joinComma, streamInterfaceName,
          String.ext_iff]⟩
    · exact ⟨h.CamelCase name ++ "(", by
        rw [(generateServerSignature_shape h servName _ k).1]
        simp [serverParams, serverReturn, isUnary, joinComma, streamInterfaceName,
          String.ext_iff]⟩

theorem handlerName_nodup_witness :
    ([getUserSnake, listUsers].map (fun m => goHost.CamelCase m.Name)).Nodup
    ∧ ([getUserSnake, listUsers].map (handlerName goHost "Users")).Nodup :=
  ⟨by decide, (handlerName_nodup goHost "Users" [getUserSnake, listUsers] (by decide)).1⟩

/-! ## unexport -/

theorem ascii_cases (p : Char → Prop) (hp : ∀ n, n < 128 → p (Char.ofNat n)) (c : Char)
    (hc : c.toNat < 128) : p c := by
  have e := hp c.toNat hc
  rwa [Char.ofNat_toNat] at e

theorem toLower_not_upper (c : Char) (hc : c.toNat < 128) :
    isASCIIUpper c.toLower = false := by
  revert c
  apply ascii_cases
  intro n hn
  interval_cases n <;> decide

theorem toLower_lower_of_letter (c : Char)
    (hc : isASCIILower c = true ∨ isASCIIUpper c = true) :
    isASCIILower c.toLower = true := by
  have h128 : c.toNat < 128 := by
    simp [isASCIILower, isASCIIUpper] at hc
    omega
  revert hc
  revert c
  apply ascii_cases
  intro n hn
  interval_cases n <;> decide

theorem unexport_eq_none (s : String) : unexport s = none ↔ s = "" := by
  obtain ⟨d⟩ := s
  cases d with
  | nil => simp [unexport]
  | cons c rest => simp [unexport, String.ext_iff]

/-- C15, at the Go string `Éa`: `unexport` lowers the first byte, not the first character;
the byte alone is no character and comes out as the three bytes of the replacement
character, so the result is two bytes longer and is not the string with its first character
lowered. -/
theorem unexport_accented :
    accented ≠ ""
    ∧ unexport accented = some (String.mk [Char.ofNat 0xEF, Char.ofNat 0xBF, Char.ofNat 0xBD,
        Char.ofNat 0x89, 'a'])
    ∧ unexport accented ≠ lowerFirst accented
    ∧ ¬ (∀ r, unexport accented = some r → r.length = accented.length) := by
  decide

/-- C15, amended: for every non-empty string whose first byte is ASCII, `unexport` is the
string with its first character replaced by that character's lower-case form and every later
character unchanged, so the result has the length and the tail of the string; and `unexport`
fails only on the empty string. -/
theorem unexport_ascii (s : String) (c : Char) (rest : List Char) (hs : s.data = c :: rest)
    (hc : c.toNat < 128) :
    unexport s = some (String.mk (c.toLower :: rest))
    ∧ unexport s = lowerFirst s
    ∧ (∀ r, unexport s = some r →
        r.length = s.length ∧ r.data.head? = some c.toLower ∧ r.data.tail = s.data.tail)
    ∧ (∀ t : String, unexport t = none ↔ t = "") := by
  have e : unexport s = some (String.mk (c.toLower :: rest)) := by
    simp [unexport, hs, toLowerByte, hc, String.ext_iff, String.singleton]
  refine ⟨e, by simp [e, lowerFirst, hs], ?_, unexport_eq_none⟩
  intro r hr
  rw [e] at hr
  cases hr
  simp [String.length, hs]

theorem unexport_ascii_witness :
    "Ping".data = 'P' :: ['i', 'n', 'g'] ∧ 'P'.toNat < 128
    ∧ unexport "Ping" = some (String.mk ('P'.toLower :: ['i', 'n', 'g'])) :=
  ⟨by decide, by decide, (unexport_ascii "Ping" 'P' ['i', 'n', 'g'] (by decide) (by decide)).1⟩

theorem CamelCase_head (c0 : Char) (rest0 : List Char) :
    ∃ f tl, (CamelCase (String.mk (c0 :: rest0))).data = f :: tl
      ∧ (c0 = '_' → f = 'X')
      ∧ (c0 ≠ '_' →
          f = if isASCIIDigit c0 then c0 else if isASCIILower c0 then c0.toUpper else c0) := by
  by_cases e : c0 = '_'
  · exact ⟨'X', CamelCase.loop false rest0, by simp [CamelCase, e], fun _ => rfl,
      fun n => absurd e n⟩
  · by_cases d : isASCIIDigit c0 = true
    · exact ⟨c0, CamelCase.loop false rest0, by simp [CamelCase, CamelCase.loop, e, d],
        fun n => absurd n e, fun _ => by simp [d]⟩
    · exact ⟨if isASCIILower c0 then c0.toUpper else c0, CamelCase.loop true rest0,
        by simp [CamelCase, CamelCase.loop, e, d], fun n => absurd n e, fun _ => by simp [d]⟩

theorem unexport_head (s : String) (f : Char) (tl : List Char) (hs : s.data = f :: tl) :
    ∃ r c rest, unexport s = some r ∧ r.data = c :: rest
      ∧ (f.toNat < 128 → c = f.toLower) ∧ (¬ f.toNat < 128 → c = Char.ofNat 0xEF) := by
  by_cases hf : f.toNat < 128
  · exact ⟨toLowerByte f ++ String.mk tl, f.toLower, tl, by simp [unexport, hs],
      by simp [toLowerByte, hf, String.singleton], fun _ => rfl, fun n => absurd hf n⟩
  · exact ⟨toLowerByte f ++ String.mk tl, Char.ofNat 0xEF,
      Char.ofNat 0xBF :: Char.ofNat 0xBD :: tl, by simp [unexport, hs],
      by simp [toLowerByte, hf], fun n => absurd n hf, fun _ => rfl⟩

theorem toUpper_toLower_lower (c : Char) (hc : isASCIILower c = true) :
    c.toUpper.toNat < 128 ∧ isASCIILower c.toUpper.toLower = true := by
  have h128 : c.toNat < 128 := by
    simp [isASCIILower] at hc
    omega
  revert hc
  revert c
  apply ascii_cases
  intro n hn
  interval_cases n <;> decide

/-- C16, at the name `2fa`: `unexport (CamelCase name)` is `2Fa`, whose first character is
the digit `2`, not a lower-case character. -/
theorem unexport_CamelCase_digit :
    "2fa" ≠ ""
    ∧ unexport (CamelCase "2fa") = some "2Fa"
    ∧ "2Fa".data.head? = some '2'
    ∧ '2'.isLower = false ∧ isASCIILower '2' = false := by
  decide

/-- C16, amended: for every non-empty input name, `CamelCase name` is non-empty, so
`unexport (CamelCase name)` is defined; its first character is never an upper-case letter,
and it is a lower-case letter whenever the name starts with a letter or an underscore, as
every schema identifier does. -/
theorem unexport_CamelCase (name : String) (hn : name ≠ "") :
    CamelCase name ≠ ""
    ∧ ∃ r c rest, unexport (CamelCase name) = some r ∧ r.data = c :: rest
        ∧ isASCIIUpper c = false
        ∧ (∀ c0 rest0, name.data = c0 :: rest0 →
            (isASCIILower c0 = true ∨ isASCIIUpper c0 = true ∨ c0 = '_') →
            isASCIILower c = true) := by
  obtain ⟨d⟩ := name
  cases d with
  | nil => exact absurd rfl hn
  | cons c0 rest0 =>
    obtain ⟨f, tl, hf, hX, hY⟩ := CamelCase_head c0 rest0
    obtain ⟨r, c, rest, hr, hd, hlo, hhi⟩ := unexport_head _ f tl hf
    refine ⟨fun e => (by rw [e] at hf; cases hf), r, c, rest, hr, hd, ?_, ?_⟩
    · by_cases h128 : f.toNat < 128
      · rw [hlo h128]; exact toLower_not_upper f h128
      · rw [hhi h128]; decide
    · intro c1 rest1 e hc
      cases e
      by_cases e : c0 = '_'
      · have hfX := hX e
        subst hfX
        rw [hlo (by decide)]; decide
      · have hf2 := hY e
        rcases hc with hl | hu | hus
        · have hdig : isASCIIDigit c0 = false := by
            simp [isASCIILower, isASCIIDigit] at hl ⊢
            omega
          simp [hdig, hl] at hf2
          subst hf2
          rw [hlo (toUpper_toLower_lower c0 hl).1]
          exact (toUpper_toLower_lower c0 hl).2
        · have hdig : isASCIIDigit c0 = false := by
            simp [isASCIIUpper, isASCIIDigit] at hu ⊢
            omega
          have hl : isASCIILower c0 = false := by
            simp [isASCIIUpper, isASCIILower] at hu ⊢
            omega
          simp [hdig, hl] at hf2
          subst hf2
          have h128 : f.toNat < 128 := by
            simp [isASCIIUpper] at hu
            omega
          rw [hlo h128]
          exact toLower_lower_of_letter f (Or.inr hu)
        · exact absurd hus e

theorem unexport_CamelCase_witness :
    "get_user" ≠ "" ∧ CamelCase "get_user" ≠ ""
    ∧ unexport (CamelCase "get_user") = some "getUser" :=
  ⟨by decide, (unexport_CamelCase "get_user" (by decide)).1, by decide⟩

/-! ## The message of a stub -/

theorem stubReturn_eq_iff (b : Bool) (s c msg1 msg2 : String) :
    stubReturn b s c msg1 = stubReturn b s c msg2 ↔ msg1 = msg2 := by
  cases b <;> simp [stubReturn, String.ext_iff]

/-- C17, at the unary method `Ping` of the service `Ping`: the stub that
`generateServerMethodConcrete` emits returns the error value with the message
`method Ping not implemented`; no line of it carries `UnimplementedPing not implemented`. -/
theorem generateServerMethodConcrete_message_Ping :
    emitted (generateServerMethodConcrete plainHost "Ping" pingMethod) readyState
      = ["func (*UnimplementedPingServer) Ping(ctx context.Context, req *PingRequest) "
            ++ "(*PingResponse, error) \x7b",
          "return nil, kiteg.Errorf(kiteg.Unimplemented, \"method Ping not implemented\")",
          "\x7d"]
    ∧ stubReturn (isUnary pingMethod) "kiteg" "kiteg"
          ("Unimplemented" ++ plainHost.CamelCase pingMethod.Name ++ " not implemented")
        ∉ emitted (generateServerMethodConcrete plainHost "Ping" pingMethod) readyState := by
  decide

/-- C17, amended: for every method, the stub emitted on `Unimplemented<Service>Server` is
the header, one return statement and the closing brace, and the error value of the return
statement carries the message `method <Method> not implemented`, where `<Method>` is the
camel-cased name of the method, and no other message. -/
theorem generateServerMethodConcrete_message (h : Host) (servName : String)
    (m : MethodDescriptorProto) (k : State) :
    (generateServerMethodConcrete h servName m k).1 = some ()
    ∧ emitted (generateServerMethodConcrete h servName m) k
        = ["func (*Unimplemented" ++ servName ++ "Server) "
              ++ serverSignatureWithParamNames h k.contextPkg servName m ++ " \x7b",
            stubReturn (isUnary m) (h.GoPackageName statusPkgPath)
              (h.GoPackageName codePkgPath)
              ("method " ++ h.CamelCase m.Name ++ " not implemented"),
            "\x7d"]
    ∧ (∀ msg, stubReturn (isUnary m) (h.GoPackageName statusPkgPath)
          (h.GoPackageName codePkgPath) msg
            ∈ emitted (generateServerMethodConcrete h servName m) k
        ↔ msg = "method " ++ h.CamelCase m.Name ++ " not implemented")
    ∧ stubReturn (isUnary m) (h.GoPackageName statusPkgPath) (h.GoPackageName codePkgPath)
          ("Unimplemented" ++ h.CamelCase m.Name ++ " not implemented")
        ∉ emitted (generateServerMethodConcrete h servName m) k := by
  obtain ⟨us, hr⟩ := generateServerMethodConcrete_run h servName m
  have e : emitted (generateServerMethodConcrete h servName m) k
      = stubLines h k.contextPkg servName m := by
    simp [emitted, hr]
  have hiff : ∀ msg, stubReturn (isUnary m) (h.GoPackageName statusPkgPath)
        (h.GoPackageName codePkgPath) msg
          ∈ emitted (generateServerMethodConcrete h servName m) k
      ↔ msg = "method " ++ h.CamelCase m.Name ++ " not implemented" := by
    intro msg
    rw [e]
    simp only [stubLines, List.mem_cons, List.mem_singleton, List.not_mem_nil, or_false,
      stubReturn_eq_iff]
    have n1 : stubReturn (isUnary m) (h.GoPackageName statusPkgPath)
        (h.GoPackageName codePkgPath) msg
        ≠ "func (*Unimplemented" ++ servName ++ "Server) "
          ++ serverSignatureWithParamNames h k.contextPkg servName m ++ " \x7b" := by
      simp only [stubReturn, String.append_assoc]
      simp (disch := decide) only [append_eq_append_false, not_false_eq_true, ne_eq]
    have n2 : stubReturn (isUnary m) (h.GoPackageName statusPkgPath)
        (h.GoPackageName codePkgPath) msg ≠ "\x7d" := by
      simp only [stubReturn, String.append_assoc]
      simp (disch := decide) only [append_eq_false, not_false_eq_true, ne_eq]
    simp [n1, n2]
  refine ⟨by simp [hr], by rw [e]; rfl, hiff, ?_⟩
  rw [hiff]
  simp only [String.append_assoc]
  simp (disch := decide) only [append_eq_append_false, not_false_eq_true]

/-! ## The full method name -/

theorem generateClientMethod_invoke_path (h : Host) (servName full sdv d u : String)
    (m : MethodDescriptorProto) (k : State) (hu : unexport servName = some u)
    (hm : isUnary m = true) :
    "err := c.cc.Invoke(ctx, \"" ++ ("/" ++ full ++ "/" ++ m.Name) ++ "\", in, out, opts...)"
      ∈ emitted (generateClientMethod h servName full sdv m d) k := by
  obtain ⟨name, inT, outT, cs, ss, dep⟩ := m
  cases cs <;> cases ss <;> simp [isUnary] at hm
  cases dep <;>
    simp [generateClientMethod, generateClientSignature, reservedClientName, hu, emitted,
      String.append_assoc]

theorem generateServerMethod_fullMethod (h : Host) (servName full : String)
    (m : MethodDescriptorProto) (k : State) (hm : isUnary m = true) :
    "FullMethod: " ++ h.Quote ("/" ++ full ++ "/" ++ h.CamelCase m.Name) ++ ","
      ∈ emitted (generateServerMethod h servName full m) k := by
  obtain ⟨name, inT, outT, cs, ss, dep⟩ := m
  cases cs <;> cases ss <;> simp [isUnary] at hm
  simp [generateServerMethod, emitted, String.append_assoc]

/-- C18, at the service `Users` of the package `demo` with the one unary method `get_user`:
the client method passes the path `/demo.Users/get_user` to `Invoke` and the descriptor table
registers the method name `get_user`, while the dispatch handler records the full method
`/demo.Users/GetUser`. -/
theorem generateServerMethod_fullMethod_get_user :
    fullServiceName usersFile usersService = "demo.Users"
    ∧ goHost.CamelCase usersService.Name = "Users"
    ∧ "err := c.cc.Invoke(ctx, \"/demo.Users/get_user\", in, out, opts...)"
      ∈ emitted (generateClientMethod goHost "Users" "demo.Users" "_Users_serviceDesc"
          getUserSnake "&_Users_serviceDesc.Methods[0]") readyState
    ∧ "MethodName: \"get_user\","
      ∈ emitted (generateService.methodDescs goHost ["_Users_GetUser_Handler"]
          usersService.Method 0) readyState
    ∧ "FullMethod: \"/demo.Users/GetUser\","
      ∈ emitted (generateServerMethod goHost "Users" "demo.Users" getUserSnake) readyState
    ∧ "FullMethod: \"/demo.Users/get_user\","
      ∉ emitted (generateServerMethod goHost "Users" "demo.Users" getUserSnake) readyState := by
  decide

/-! ## Arguments of the dispatch handler -/

theorem lit_eq_ends_false (a x c : String) (h : ¬ c.data <:+ a.data) :
    (a = x ++ c) = False :=
  eq_comm_false (ends_eq_false x c a h)

/-- C19: the positional server signature declares the parameters `callShape` of the method,
and every call of the server implementation in the emitted dispatch handler passes one
argument for each of them, in the same order: context and request for a unary method, request
and stream for a method that only the server streams, the stream alone for a client-streaming
or bidirectional method.  The handler emits the `RecvMsg` of the request exactly when the
method is streaming and not client-streaming, and then in the line before the call. -/
theorem generateServerMethod_arguments (h : Host) (servName full u : String)
    (m : MethodDescriptorProto) (k : State) (hu : unexport servName = some u) :
    (generateServerSignature h servName m k).1
        = some (h.CamelCase m.Name ++ "("
            ++ joinComma ((callShape m).map (paramText h k.contextPkg servName m)) ++ ") "
            ++ serverReturn h m)
    ∧ (∀ l ∈ handlerCalls h servName (h.CamelCase m.Name)
          (u ++ h.CamelCase m.Name ++ "Server") m,
        l ∈ emitted (generateServerMethod h servName full m) k)
    ∧ (∀ inClosure,
        ((callShape m).map (argText h m (u ++ h.CamelCase m.Name ++ "Server") inClosure)).length
          = ((callShape m).map (paramText h k.contextPkg servName m)).length)
    ∧ (m.ClientStreaming = false → m.ServerStreaming = false →
        callShape m = [Param.ctx, Param.request])
    ∧ (m.ClientStreaming = false → m.ServerStreaming = true →
        callShape m = [Param.request, Param.stream])
    ∧ (m.ClientStreaming = true → callShape m = [Param.stream])
    ∧ ("if err := stream.RecvMsg(m); err != nil \x7b return err \x7d"
          ∈ emitted (generateServerMethod h servName full m) k
        ↔ (isUnary m = false ∧ m.ClientStreaming = false))
    ∧ (isUnary m = false → m.ClientStreaming = false →
        (emitted (generateServerMethod h servName full m) k)[2]?
            = some "if err := stream.RecvMsg(m); err != nil \x7b return err \x7d"
        ∧ (emitted (generateServerMethod h servName full m) k)[3]?
            = some ("return " ++ serverCall servName (h.CamelCase m.Name)
                ["m", "&" ++ (u ++ h.CamelCase m.Name ++ "Server") ++ "\x7bstream\x7d"])) := by
  refine ⟨?_, (generateServerMethod_calls h servName full u m k hu _).2 rfl, by simp,
    ?_, ?_, ?_, ?_, ?_⟩
  · rw [(generateServerSignature_shape h servName m k).1]
    obtain ⟨name, inT, outT, cs, ss, dep⟩ := m
    cases cs <;> cases ss <;> simp [callShape, paramText, serverParams, isUnary]
  · intro h1 h2; simp [callShape, isUnary, h1, h2]
  · intro h1 h2; simp [callShape, isUnary, h1, h2]
  · intro h1; simp [callShape, isUnary, h1]
  · obtain ⟨name, inT, outT, cs, ss, dep⟩ := m
    cases cs <;> cases ss <;>
      simp [generateServerMethod, hu, emitted, isUnary, String.append_assoc] <;>
      simp (disch := decide) only [eq_append_false, lit_eq_false, lit_eq_ends_false,
        not_false_eq_true, and_self, and_true, true_and]
  · intro h1 h2
    obtain ⟨name, inT, outT, cs, ss, dep⟩ := m
    cases cs <;> cases ss <;> simp [isUnary] at h1 h2
    simp [generateServerMethod, hu, emitted, serverCall, joinComma, String.append_assoc]
    simp [String.ext_iff]

theorem generateServerMethod_arguments_witness :
    unexport "Watch" = some "watch"
    ∧ (generateServerSignature plainHost "Watch" watchMethod readyState).1
        = some (plainHost.CamelCase watchMethod.Name ++ "("
            ++ joinComma ((callShape watchMethod).map
                (paramText plainHost readyState.contextPkg "Watch" watchMethod)) ++ ") "
            ++ serverReturn plainHost watchMethod)
    ∧ callShape watchMethod = [Param.request, Param.stream] :=
  have w := generateServerMethod_arguments plainHost "Watch" "demo.Watch" "watch" watchMethod
    readyState (by decide)
  ⟨by decide, w.1, w.2.2.2.2.1 rfl rfl⟩

/-! ## Constructors -/

theorem take_three_eq_iff (l : List Char) :
    (String.mk (l.take 3) == "Req") = "Req".data.isPrefixOf l := by
  rw [Bool.eq_iff_iff]
  simp only [beq_iff_eq, List.isPrefixOf_iff_prefix, String.ext_iff,
    List.prefix_iff_eq_take]
  exact ⟨fun e => e.symm, fun e => e.symm⟩

theorem GenNew_messages_run (q : GoIdent → String) (ms : List Message) (g : GeneratedFile) :
    GenNew.messages q ms g = { g with buf := g.buf ++ (ms.filter qualifies).map (newLine q) } := by
  induction ms generalizing g with
  | nil => simp [GenNew.messages]
  | cons m rest ih =>
    have e : (decide (m.GoIdent.GoName.length > 3)
        && String.mk (m.GoIdent.GoName.data.take 3) == "Req") = qualifies m := by
      simp [qualifies, take_three_eq_iff]
    unfold GenNew.messages
    rw [e]
    cases hq : qualifies m <;>
      simp [ih, hq, List.filter_cons, GeneratedFile.P, Arg.print, newLine, String.append_assoc]

/-- C20: for every file, `GenNew` appends to the generated file exactly the `New()`
constructor lines of the top-level messages whose Go name is longer than three characters
and begins with `Req`, one line each, in the order of declaration, and nothing for any other
message; so the number of lines it emits is the number of those messages.  A message named
exactly `Req` and a message whose name does not begin with `R` get no constructor. -/
theorem GenNew_lines (q : GoIdent → String) (file : File) (g : GeneratedFile) :
    (GenNew q file g).buf = g.buf ++ (file.Messages.filter qualifies).map (newLine q)
    ∧ ((GenNew q file g).buf.drop g.buf.length).length
        = (file.Messages.filter qualifies).length
    ∧ (∀ message, qualifies message = true
        ↔ 3 < message.GoIdent.GoName.length ∧ "Req".data <+: message.GoIdent.GoName.data)
    ∧ (∀ message, message.GoIdent.GoName = "Req" → qualifies message = false)
    ∧ (∀ message c rest, message.GoIdent.GoName.data = c :: rest → c ≠ 'R' →
        qualifies message = false)
    ∧ (∀ message, newLine q message
        = "func (m *" ++ q message.GoIdent ++ ") New() *" ++ q message.GoIdent
          ++ "\x7b return &" ++ q message.GoIdent ++ "\x7b\x7d \x7d") := by
  have e := GenNew_messages_run q file.Messages g
  refine ⟨by simp [GenNew, e], by simp [GenNew, e], ?_, ?_, ?_, fun _ => rfl⟩
  · intro message
    simp [qualifies, List.isPrefixOf_iff_prefix]
  · intro message hm
    simp [qualifies, hm]
    decide
  · intro message c rest hm hc
    simp only [qualifies, hm, List.isPrefixOf, Bool.and_eq_false_imp, decide_eq_true_eq]
    intro _
    have n : ('R' == c) = false := by simpa using Ne.symm hc
    simp [n]

theorem GenNew_lines_witness :
    (GenNew localIdent sampleFile { buf := [] }).buf
      = ["func (m *ReqLogin) New() *ReqLogin\x7b return &ReqLogin\x7b\x7d \x7d",
          "func (m *ReqLogout) New() *ReqLogout\x7b return &ReqLogout\x7b\x7d \x7d"]
    ∧ (sampleFile.Messages.filter qualifies).length = 2 := by
  have w := GenNew_lines localIdent sampleFile { buf := [] }
  exact ⟨by rw [w.1]; decide, by decide⟩

end Kite
